import Mathlib

set_option maxRecDepth 16384

/-!
Verification development for the Excel merge utility (`merge-app.py`).

The pipeline is: read each uploaded workbook into a string-typed table
(`pd.read_excel(..., dtype=str)`), validate rows against the 19 required
columns, format the four numeric columns, concatenate the per-file results
and write them into a copy of the template workbook starting at row 15,
column 1.

Modelling conventions:
* A cell holds a `Value`.  Since the frames are read with `dtype=str`,
  cells are strings or NaN; `Value.int` and `Value.float` model other
  Python scalars that the helper functions can receive.  `Value.none`
  models Python `None`, `Value.nan` a float NaN (both are `pd.isna`).
* Python floats are modelled as exact rationals (`PyFloat.finite`),
  plus infinities and NaN.  IEEE-754 rounding and overflow of decimal
  literals to `inf` are abstracted away: only the literals
  `inf`/`infinity` (any case, optionally signed) parse to infinities in
  the model.
* `str.strip` is modelled over the ASCII whitespace characters; the extra
  Unicode whitespace stripped by Python does not occur in the claims.
* `str.lower` is modelled by ASCII lowercasing (`Char.toLower`), which
  agrees with Python on the ASCII strings the code compares against.
-/

set_option autoImplicit false

namespace MergeApp

/-- A Python scalar value as it can appear in a cell of one of the frames. -/
inductive Value where
  | none
  | nan
  | str (s : String)
  | int (n : ℤ)
  | float (q : ℚ)
  deriving DecidableEq, Repr

/-- Exceptions that the modelled fragments of the program can raise. -/
inductive PyErr where
  | valueError
  | typeError
  | overflowError
  deriving DecidableEq, Repr

/-- Result of Python `float(...)`: a finite value (modelled exactly as a
rational), an infinity, or NaN. -/
inductive PyFloat where
  | finite (q : ℚ)
  | pinf
  | ninf
  | nan
  deriving DecidableEq, Repr

/-- `pd.isna` on a scalar: true exactly for `None` and float NaN. -/
def pyIsna : Value → Bool
  | .none => true
  | .nan => true
  | _ => false

/-- Python `==` comparison of a value against a string literal: only a
string can compare equal to a string. -/
def valueEqStr (v : Value) (s : String) : Bool :=
  match v with
  | .str t => t == s
  | _ => false

/-- Characters stripped by `str.strip()` (ASCII whitespace). -/
def isSpaceChar (c : Char) : Bool :=
  c == ' ' || c == '\t' || c == '\n' || c == '\r' || c == '\x0b' || c == '\x0c'

/-- Decimal digit characters (code points 48-57). -/
def isDigitChar (c : Char) : Bool :=
  decide (48 ≤ c.toNat ∧ c.toNat ≤ 57)

/-- ASCII lowercasing of one character, as Python's `str.lower` acts on
the ASCII range (code points 65-90 shift by 32). -/
def lowerChar (c : Char) : Char :=
  if 65 ≤ c.toNat ∧ c.toNat ≤ 90 then Char.ofNat (c.toNat + 32) else c

/-- Numeric value of a digit character. -/
def digitVal (c : Char) : Nat := c.toNat - '0'.toNat

/-- Digit character for a value below 10. -/
def digitChar (d : Nat) : Char := Char.ofNat ('0'.toNat + d)

/-- `str.strip()` on a character list: drop leading and trailing whitespace. -/
def stripSpaces (l : List Char) : List Char :=
  ((l.dropWhile isSpaceChar).reverse.dropWhile isSpaceChar).reverse

/-- `str.strip()`. -/
def pyStrip (s : String) : String := String.mk (stripSpaces s.data)

/-- `str.lower()` (ASCII). -/
def pyLower (s : String) : String := String.mk (s.data.map lowerChar)

/-- `str.replace(',', '')`: remove every comma. -/
def removeCommas (s : String) : String := String.mk (s.data.filter (fun c => c ≠ ','))

/-- `is_missing_value` (merge-app.py:62-68): NaN/None, the empty or
whitespace-only string, and any string whose stripped lowercase form is
`"nan"` count as missing. -/
def is_missing_value (v : Value) : Bool :=
  match v with
  | .none => true
  | .nan => true
  | .str s => pyStrip s == "" || pyLower (pyStrip s) == "nan"
  | _ => false

/-- `count_missing_values` (merge-app.py:70-71). -/
def count_missing_values (vals : List Value) : Nat :=
  vals.countP (fun v => is_missing_value v)

/-! ### The Python float literal parser

`float(s)` strips whitespace, reads an optional sign, and accepts either
`inf`/`infinity`/`nan` (case-insensitive) or a decimal literal
`digits [. digits] [e sign digits]` in which a single underscore may
separate two digits (PEP 515). -/

/-- Greedy parser for a digit run `digit (("_")? digit)*`; returns the
accumulated value, the number of digits read, and the rest of the input. -/
def digitRunGo : List Char → Nat → Nat → Nat × Nat × List Char
  | [], acc, n => (acc, n, [])
  | [c], acc, n =>
      if isDigitChar c then (10 * acc + digitVal c, n + 1, [])
      else (acc, n, [c])
  | c :: d :: rest, acc, n =>
      if isDigitChar c then digitRunGo (d :: rest) (10 * acc + digitVal c) (n + 1)
      else if c == '_' && !(n == 0) && isDigitChar d then
        digitRunGo rest (10 * acc + digitVal d) (n + 1)
      else (acc, n, c :: d :: rest)

/-- Optional sign; returns whether the value is negated and the rest. -/
def parseSign : List Char → Bool × List Char
  | [] => (false, [])
  | c :: rest =>
      if c = '+' then (false, rest)
      else if c = '-' then (true, rest)
      else (false, c :: rest)

/-- Optional exponent part `("e"|"E") sign? digits`; `none` when an `e` is
present but malformed. -/
def parseExpPart : List Char → Option (ℤ × List Char)
  | [] => some (0, [])
  | c :: rest =>
      if c == 'e' || c == 'E' then
        let s := parseSign rest
        let r := digitRunGo s.2 0 0
        if r.2.1 == 0 then none
        else some ((if s.1 then -(r.1 : ℤ) else (r.1 : ℤ)), r.2.2)
      else some (0, c :: rest)

/-- The decimal-literal part of `float(...)`: mantissa
`digits [. digits]` followed by an optional exponent, consuming the whole
input. -/
def parseNumberTail (neg : Bool) (cs1 : List Char) : Option PyFloat :=
  let ir := digitRunGo cs1 0 0
  let m : ℚ × Bool × List Char :=
    match ir.2.2 with
    | '.' :: cs3 =>
        let fr := digitRunGo cs3 0 0
        (((ir.1 : ℚ) * 10 ^ fr.2.1 + (fr.1 : ℚ)) / 10 ^ fr.2.1,
          decide (ir.2.1 + fr.2.1 ≠ 0), fr.2.2)
    | _ => ((ir.1 : ℚ), decide (ir.2.1 ≠ 0), ir.2.2)
  if m.2.1 then
    match parseExpPart m.2.2 with
    | Option.none => Option.none
    | some (e, cs5) =>
        if cs5 = [] then
          some (PyFloat.finite ((if neg then -m.1 else m.1) * 10 ^ e))
        else Option.none
  else Option.none

/-- `float(...)` on a character list. -/
def pyFloatOfChars (cs0 : List Char) : Option PyFloat :=
  let cs := stripSpaces cs0
  let sg := parseSign cs
  let low := sg.2.map lowerChar
  if low = "inf".data ∨ low = "infinity".data then
    some (if sg.1 then PyFloat.ninf else PyFloat.pinf)
  else if low = "nan".data then some PyFloat.nan
  else parseNumberTail sg.1 sg.2

/-- `float(s)` on a string. -/
def pyFloatOfString (s : String) : Option PyFloat := pyFloatOfChars s.data

/-- `float(value)` on an arbitrary value, including the comma-stripping
applied to strings (merge-app.py:48-52).  `None` raises `TypeError`,
unparseable strings raise `ValueError`. -/
def pyFloat : Value → Except PyErr PyFloat
  | .str s =>
      match pyFloatOfString (removeCommas s) with
      | some f => .ok f
      | Option.none => .error .valueError
  | .int n => .ok (.finite (n : ℚ))
  | .float q => .ok (.finite q)
  | .nan => .ok .nan
  | .none => .error .typeError

/-! ### Rendering with thousands separators -/

/-- Decimal digit characters of a natural number, most significant first. -/
def natDigitsGo : Nat → Nat → List Char → List Char
  | 0, _, acc => acc
  | fuel + 1, n, acc =>
      if n < 10 then digitChar n :: acc
      else natDigitsGo fuel (n / 10) (digitChar (n % 10) :: acc)

/-- Decimal digits of a natural number. -/
def natDigits (n : Nat) : List Char := natDigitsGo (n + 1) n []

/-- Insert a comma after every three characters of a reversed digit list. -/
def commaRev : Nat → List Char → List Char
  | _, [] => []
  | k, c :: rest =>
      if k = 3 then ',' :: c :: commaRev 1 rest
      else c :: commaRev (k + 1) rest

/-- Decimal rendering of a natural number with comma thousands separators. -/
def groupDigits (n : Nat) : String :=
  String.mk ((commaRev 0 (natDigits n).reverse).reverse)

/-- Truncation toward zero, Python `int(...)` on a finite float. -/
def ratTrunc (q : ℚ) : ℤ := if 0 ≤ q then q.floor else -((-q).floor)

/-- Python `f"{k:,}"` for an integer. -/
def renderInt (k : ℤ) : String :=
  (if k < 0 then "-" else "") ++ groupDigits k.natAbs

/-- Round to the nearest integer, ties to even (the rounding used by
`format` when cutting to two decimals). -/
def roundHalfEven (x : ℚ) : ℤ :=
  let fl := x.floor
  let fr := x - (fl : ℚ)
  if fr < 1 / 2 then fl
  else if 1 / 2 < fr then fl + 1
  else if fl % 2 = 0 then fl else fl + 1

/-- Python `f"{q:,.2f}"` for a finite float. -/
def renderFloat2 (q : ℚ) : String :=
  let a := if q < 0 then -q else q
  let m := (roundHalfEven (a * 100)).toNat
  (if q < 0 then "-" else "")
    ++ groupDigits (m / 100)
    ++ "."
    ++ String.mk [digitChar (m / 10 % 10), digitChar (m % 10)]

/-- The early-return guard of `format_numeric_value` (merge-app.py:44):
`pd.isna(value) or value == '' or value == 'nan'`. -/
def formatGuard (v : Value) : Bool :=
  pyIsna v || valueEqStr v "" || valueEqStr v "nan"

/-- `format_numeric_value` (merge-app.py:43-60).  The guard returns
missing-looking values unchanged; otherwise the value is converted with
`float` (strings first have commas removed), rendered with thousands
separators when conversion yields a finite float, and returned unchanged
when conversion raises `ValueError`/`TypeError` (the two exceptions the
code catches; `int(nan)` raises `ValueError`).  `int(±inf)` raises
`OverflowError`, which the code does not catch. -/
def format_numeric_value (v : Value) : Except PyErr Value :=
  if formatGuard v then .ok v
  else
    match pyFloat v with
    | .error _ => .ok v
    | .ok (.finite q) =>
        .ok (.str (if ((ratTrunc q : ℤ) : ℚ) = q then renderInt (ratTrunc q)
                   else renderFloat2 q))
    | .ok .nan => .ok v
    | .ok .pinf => .error .overflowError
    | .ok .ninf => .error .overflowError

/-! ### Schema and row validation -/

/-- `MAX_MISSING_VALUES` (merge-app.py:20). -/
def MAX_MISSING_VALUES : Nat := 10

/-- `required_columns` (merge-app.py:21-26). -/
def required_columns : List String :=
  ["PERIODE", "KANTOR WILAYAH", "KANTOR CABANG", "UNIT KERJA", "LOAN TYPE",
   "CIFNO", "NO REKENING", "NAMA DEBITUR", "STATUS REKENING", "STATUS DATE",
   "NILAI TERCATAT", "CKPN SEBELUM", "CKPN BERJALAN", "BIAYA CKPN",
   "FLAG RESTRUK", "STAGE", "KOLEKTIBILITAS", "UMUR TUNGGAKAN", "SEGMENTASI"]

/-- `numeric_columns` (merge-app.py:27). -/
def numeric_columns : List String :=
  ["NILAI TERCATAT", "CKPN SEBELUM", "CKPN BERJALAN", "BIAYA CKPN"]

/-- Index of the first occurrence of a column name in a header list
(pandas label-based column position). -/
def colIndex? (c : String) : List String → Option Nat
  | [] => Option.none
  | x :: rest => if x = c then some 0 else (colIndex? c rest).map (· + 1)

/-- Value of a named column in a positional row. -/
def lookupCell (cols : List String) (row : List Value) (c : String) : Value :=
  match colIndex? c cols with
  | some i => row.getD i Value.none
  | Option.none => Value.none

/-- `df[required_columns]` restricted to one row: the 19 required fields in
schema order (merge-app.py:203). -/
def restrictRequired (cols : List String) (row : List Value) : List Value :=
  required_columns.map (lookupCell cols row)

/-- The per-row validation mask `missing_counts <= MAX_MISSING_VALUES`
(merge-app.py:204-206). -/
def rowValid (cols : List String) (row : List Value) : Bool :=
  decide (count_missing_values (restrictRequired cols row) ≤ MAX_MISSING_VALUES)

/-- `df[valid_rows_mask]` (merge-app.py:207 and 230-233). -/
def filterValidRows (cols : List String) (rows : List (List Value)) : List (List Value) :=
  rows.filter (rowValid cols)

/-! ### Formatting the numeric columns -/

/-- Map a fallible function over a list, propagating the first error
(the effect of `Series.apply` raising). -/
def exceptMapList {ε α β : Type} (f : α → Except ε β) : List α → Except ε (List β)
  | [] => .ok []
  | a :: l =>
      match f a with
      | .error e => .error e
      | .ok b =>
          match exceptMapList f l with
          | .error e => .error e
          | .ok bs => .ok (b :: bs)

/-- Fold a fallible step over a list, propagating the first error. -/
def exceptFoldList {ε α β : Type} (f : β → α → Except ε β) : β → List α → Except ε β
  | b, [] => .ok b
  | b, a :: l =>
      match f b a with
      | .error e => .error e
      | .ok b' => exceptFoldList f b' l

/-- One step of `df[col] = df[col].apply(format_numeric_value)` on a single
row: format the cell in column `c` if that column exists. -/
def formatCellAt (cols : List String) (r : List Value) (c : String) : Except PyErr (List Value) :=
  match colIndex? c cols with
  | Option.none => .ok r
  | some i =>
      match r.get? i with
      | Option.none => .ok r
      | some v =>
          match format_numeric_value v with
          | .error e => .error e
          | .ok w => .ok (r.set i w)

/-- The loop `for col in numeric_columns: ... apply(format_numeric_value)`
(merge-app.py:211-213 and 235-237), restricted to one row. -/
def formatNumericRow (cols : List String) (row : List Value) : Except PyErr (List Value) :=
  exceptFoldList (formatCellAt cols) row numeric_columns

/-! ### Tables, reading, and the per-file pipeline -/

/-- A dataframe: a header and positional rows. -/
structure Table where
  cols : List String
  rows : List (List Value)
  deriving DecidableEq

/-- An uploaded file, as `pd.read_excel` sees it: either the read raises,
or it yields a table. -/
inductive FileInput where
  | unreadable (name : String) (msg : String)
  | readable (name : String) (t : Table)

/-- `df.columns.str.strip()` (merge-app.py:194). -/
def stripColumns (cols : List String) : List String := cols.map pyStrip

/-- `[col for col in required_columns if col not in df.columns]`
(merge-app.py:196). -/
def missingColumns (cols : List String) : List String :=
  required_columns.filter (fun c => decide (c ∉ cols))

/-- The per-file row-count log line (merge-app.py:209). -/
def fileLog (name : String) (t : Table) : String :=
  "File " ++ name ++ ": " ++ toString t.rows.length ++ " baris awal -> "
    ++ toString (filterValidRows (stripColumns t.cols) t.rows).length ++ " baris"

/-- The body of the per-file loop of `process_files` (merge-app.py:187-219):
returns the dataset this file contributes (if any) and the log lines it
appends.  An exception while reading, or while formatting the numeric
columns, is caught by the per-file `try`/`except` and logged. -/
def processOneFile : FileInput → Option Table × List String
  | .unreadable name msg => (Option.none, ["Gagal membaca " ++ name ++ ": " ++ msg])
  | .readable name t =>
      if missingColumns (stripColumns t.cols) ≠ [] then
        (Option.none, ["File " ++ name ++ ": Kolom yang hilang"])
      else
        match exceptMapList (formatNumericRow (stripColumns t.cols))
            (filterValidRows (stripColumns t.cols) t.rows) with
        | .error _ =>
            (Option.none, [fileLog name t, "Gagal membaca " ++ name ++ ": exception"])
        | .ok formatted =>
            (if formatted = [] then Option.none
             else some ⟨stripColumns t.cols, formatted⟩, [fileLog name t])

/-- `process_files` (merge-app.py:183-221): the loop accumulates datasets
and log lines file by file. -/
def process_files (files : List FileInput) : List Table × List String :=
  files.foldl
    (fun acc f => (acc.1 ++ (processOneFile f).1.toList, acc.2 ++ (processOneFile f).2))
    ([], [])

/-! ### Concatenation -/

/-- Union of headers in order of first appearance (`pd.concat` outer join
column alignment). -/
def unionCols (ls : List (List String)) : List String :=
  ls.foldl (fun acc c2 => acc ++ c2.filter (fun x => decide (x ∉ acc))) []

/-- Realign one row from its own header to the concatenated header; columns
the file lacks are filled with NaN (modelled by `Value.none`). -/
def realignRow (own target : List String) (row : List Value) : List Value :=
  target.map (lookupCell own row)

/-- `pd.concat(data_list, ignore_index=True)` (merge-app.py:227). -/
def concatTables (ds : List Table) : Table :=
  let cols := unionCols (ds.map Table.cols)
  ⟨cols, (ds.map (fun d => d.rows.map (realignRow d.cols cols))).flatten⟩

/-! ### The output workbook -/

/-- A worksheet, as a value at every (row, column) position (1-based). -/
def Sheet : Type := Nat × Nat → Value

/-- Assign one cell. -/
def setCell (s : Sheet) (r c : Nat) (v : Value) : Sheet :=
  fun p => if p = (r, c) then v else s p

/-- The inner write loop `for c_idx, value in enumerate(row, start=1)`
(merge-app.py:251-254 / 274-280): missing values are skipped, others are
assigned by direct cell access. -/
def writeRowFrom : Sheet → Nat → Nat → List Value → Sheet
  | s, _, _, [] => s
  | s, r, c, v :: vs =>
      writeRowFrom (if is_missing_value v then s else setCell s r c v) r (c + 1) vs

/-- The outer write loop `for r_idx, row in enumerate(..., start=data_start_row)`. -/
def writeRowsFrom : Sheet → Nat → List (List Value) → Sheet
  | s, _, [] => s
  | s, r, row :: rest => writeRowsFrom (writeRowFrom s r 1 row) (r + 1) rest

/-- Writing the merged rows into a copy of the template, starting at
`data_start_row = 15`, column 1 (merge-app.py:242-254). -/
def writeData (s : Sheet) (rows : List (List Value)) : Sheet :=
  writeRowsFrom s 15 rows

/-- A template workbook: its values plus its used extent. -/
structure Template where
  sheet : Sheet
  maxRow : Nat
  maxCol : Nat

/-- The value-copying part of `preserve_template_formatting`
(merge-app.py:115-122): template values are re-copied onto the output for
every cell of the template extent above the data region (row < 15); data
rows only have styles copied, so their values are untouched. -/
def preserveTemplateValues (t : Template) (out : Sheet) : Sheet :=
  fun p =>
    if 1 ≤ p.1 && p.1 ≤ t.maxRow && p.1 < 15 && 1 ≤ p.2 && p.2 ≤ t.maxCol then t.sheet p
    else out p

/-- Which write strategies succeed in the current environment: `xlwingsOk`
models the `xlwings` attempt (merge-app.py:246-258), `openpyxlOk` the
`openpyxl` fallback (merge-app.py:263-298). -/
structure WriteEnv where
  xlwingsOk : Bool
  openpyxlOk : Bool

/-- Observable result of `create_final_file`: the returned success flag and
message, the merged row count reported in the message, and the output
workbook content (when an output file was written). -/
structure CFResult where
  success : Bool
  message : String
  count : Nat
  output : Option Sheet

/-- `create_final_file` (merge-app.py:223-301): refuse an empty data list;
concatenate; re-filter with the same validity mask; re-format the numeric
columns (errors here are uncaught and propagate); copy the template and
write the rows with the first strategy that works, or report failure. -/
def create_final_file (env : WriteEnv) (data_list : List Table) (t : Template) :
    Except PyErr CFResult :=
  match data_list with
  | [] => .ok ⟨false, "Tidak ada data untuk digabung!", 0, Option.none⟩
  | _ :: _ =>
    let merged := concatTables data_list
    let rows1 := filterValidRows merged.cols merged.rows
    match exceptMapList (formatNumericRow merged.cols) rows1 with
    | .error e => .error e
    | .ok rows2 =>
        if env.xlwingsOk then
          .ok ⟨true, "Data berhasil digabung ke dalam file. Total "
                ++ toString rows2.length ++ " baris data", rows2.length,
               some (writeData t.sheet rows2)⟩
        else if env.openpyxlOk then
          .ok ⟨true, "Data berhasil digabung (fallback mode). Total "
                ++ toString rows2.length ++ " baris data", rows2.length,
               some (preserveTemplateValues t (writeData t.sheet rows2))⟩
        else
          .ok ⟨false, "Error", rows2.length, some t.sheet⟩

/-- A file is skipped by `process_files` when it is unreadable or lacks a
required column (after header stripping). -/
def badFile : FileInput → Prop
  | .unreadable _ _ => True
  | .readable _ t => ∃ c ∈ required_columns, c ∉ stripColumns t.cols

/-- A dataset as delivered by `process_files`: it knows all required
columns, and its rows are the per-file validation filter output with the
numeric columns formatted. -/
def validatedFormatted (d : Table) : Prop :=
  (∀ c ∈ required_columns, c ∈ d.cols) ∧
  ∃ rows0, exceptMapList (formatNumericRow d.cols) (filterValidRows d.cols rows0) = .ok d.rows

/-! ## Theorems -/

/-! ### Character classes -/

theorem space_enum (c : Char) (h : isSpaceChar c = true) :
    c = ' ' ∨ c = '\t' ∨ c = '\n' ∨ c = '\r' ∨ c = '\x0b' ∨ c = '\x0c' := by
  simpa [isSpaceChar, or_assoc] using h

theorem digit_not_space (c : Char) (h : isDigitChar c = true) : isSpaceChar c = false := by
  cases hs : isSpaceChar c
  · rfl
  · rcases space_enum c hs with rfl | rfl | rfl | rfl | rfl | rfl <;> exact absurd h (by decide)

theorem digit_ne_comma (c : Char) (h : isDigitChar c = true) : c ≠ ',' := by
  intro e
  subst e
  exact absurd h (by decide)

theorem lowerChar_digit (c : Char) (h : isDigitChar c = true) : lowerChar c = c := by
  simp only [isDigitChar, decide_eq_true_eq] at h
  unfold lowerChar
  rw [if_neg]
  omega

theorem space_not_nan_char (c : Char) (h : isSpaceChar c = true) :
    lowerChar c ≠ 'n' ∧ lowerChar c ≠ 'a' ∧ c ≠ ',' := by
  rcases space_enum c h with rfl | rfl | rfl | rfl | rfl | rfl <;> exact ⟨by decide, by decide, by decide⟩

theorem nan_char_props (c t : Char) (ht : t = 'n' ∨ t = 'a') (h : lowerChar c = t) :
    isSpaceChar c = false ∧ c ≠ ',' ∧ c ≠ '+' ∧ c ≠ '-' := by
  refine ⟨?_, ?_, ?_, ?_⟩
  · cases hs : isSpaceChar c
    · rfl
    · rcases space_enum c hs with rfl | rfl | rfl | rfl | rfl | rfl <;>
        rcases ht with rfl | rfl <;> exact absurd h (by decide)
  · intro e; subst e; rcases ht with rfl | rfl <;> exact absurd h (by decide)
  · intro e; subst e; rcases ht with rfl | rfl <;> exact absurd h (by decide)
  · intro e; subst e; rcases ht with rfl | rfl <;> exact absurd h (by decide)

/-! ### Stripping lemmas -/

theorem dropWhile_all (l : List Char) (h : ∀ c ∈ l, isSpaceChar c = true) :
    l.dropWhile isSpaceChar = [] := by
  induction l with
  | nil => rfl
  | cons c l ih =>
      rw [List.dropWhile_cons, if_pos (h c (List.mem_cons_self c l))]
      exact ih (fun c' hc' => h c' (List.mem_cons_of_mem c hc'))

theorem stripSpaces_all (l : List Char) (h : ∀ c ∈ l, isSpaceChar c = true) :
    stripSpaces l = [] := by
  unfold stripSpaces
  rw [dropWhile_all l h]
  rfl

theorem all_of_stripSpaces_nil (l : List Char) (h : stripSpaces l = []) :
    ∀ c ∈ l, isSpaceChar c = true := by
  unfold stripSpaces at h
  have h2 : (l.dropWhile isSpaceChar).reverse.dropWhile isSpaceChar = [] := by
    have := congrArg List.reverse h
    simpa using this
  have h3 : ∀ c ∈ (l.dropWhile isSpaceChar).reverse, isSpaceChar c = true := by
    intro c hc
    exact List.dropWhile_eq_nil_iff.mp h2 c hc
  have h4 : ∀ c ∈ l.dropWhile isSpaceChar, isSpaceChar c = true := by
    intro c hc
    exact h3 c (List.mem_reverse.mpr hc)
  intro c hc
  rcases (List.takeWhile_append_dropWhile (p := isSpaceChar) (l := l)) ▸ hc with hmem
  rcases List.mem_append.mp hmem with h5 | h5
  · exact List.mem_takeWhile_imp h5
  · exact h4 c h5

theorem rev_strip_split (m : List Char) :
    m = (m.reverse.dropWhile isSpaceChar).reverse ++ (m.reverse.takeWhile isSpaceChar).reverse := by
  conv_lhs => rw [← List.reverse_reverse m]
  rw [← List.reverse_append, List.takeWhile_append_dropWhile]

theorem stripSpaces_decomp (l : List Char) :
    ∃ pre suf, l = pre ++ stripSpaces l ++ suf ∧
      (∀ c ∈ pre, isSpaceChar c = true) ∧ (∀ c ∈ suf, isSpaceChar c = true) := by
  refine ⟨l.takeWhile isSpaceChar,
    ((l.dropWhile isSpaceChar).reverse.takeWhile isSpaceChar).reverse, ?_,
    fun c hc => List.mem_takeWhile_imp hc,
    fun c hc => List.mem_takeWhile_imp (List.mem_reverse.mp hc)⟩
  conv_lhs => rw [← List.takeWhile_append_dropWhile (p := isSpaceChar) (l := l)]
  rw [List.append_assoc]
  congr 1
  exact rev_strip_split (l.dropWhile isSpaceChar)

theorem dropWhile_append_all (pre l : List Char)
    (h : ∀ c ∈ pre, isSpaceChar c = true) :
    (pre ++ l).dropWhile isSpaceChar = l.dropWhile isSpaceChar := by
  induction pre with
  | nil => rfl
  | cons c pre ih =>
      rw [List.cons_append, List.dropWhile_cons, if_pos (h c (List.mem_cons_self c pre))]
      exact ih (fun c' hc' => h c' (List.mem_cons_of_mem c hc'))

theorem dropWhile_cons_false (c : Char) (l : List Char) (h : isSpaceChar c = false) :
    (c :: l).dropWhile isSpaceChar = c :: l := by
  rw [List.dropWhile_cons, if_neg]
  simp [h]

/-- Stripping a string that decomposes as space-prefix, a core with
non-space endpoints, and space-suffix yields exactly the core. -/
theorem stripSpaces_sandwich (pre core suf : List Char)
    (hpre : ∀ c ∈ pre, isSpaceChar c = true) (hsuf : ∀ c ∈ suf, isSpaceChar c = true)
    (hhead : ∀ c l2, core = c :: l2 → isSpaceChar c = false)
    (hlast : ∀ c l2, core.reverse = c :: l2 → isSpaceChar c = false) :
    stripSpaces (pre ++ core ++ suf) = core := by
  cases core with
  | nil =>
      refine stripSpaces_all _ (fun c hcm => ?_)
      simp only [List.append_nil, List.nil_append] at hcm
      rcases List.mem_append.mp hcm with h | h
      · exact hpre c h
      · exact hsuf c h
  | cons c0 rest =>
      unfold stripSpaces
      rw [List.append_assoc, dropWhile_append_all pre _ hpre, List.cons_append,
        dropWhile_cons_false c0 _ (hhead c0 rest rfl), ← List.cons_append,
        List.reverse_append,
        dropWhile_append_all suf.reverse _ (fun c hcm => hsuf c (List.mem_reverse.mp hcm))]
      cases hrev : (c0 :: rest).reverse with
      | nil => simp at hrev
      | cons cl ll =>
          rw [dropWhile_cons_false cl ll (hlast cl ll hrev), ← hrev,
            List.reverse_reverse]

/-! ### Parser lemmas -/

theorem parseSign_other (c : Char) (l : List Char) (h1 : c ≠ '+') (h2 : c ≠ '-') :
    parseSign (c :: l) = (false, c :: l) := by
  show (if c = '+' then ((false, l) : Bool × List Char)
        else if c = '-' then (true, l) else (false, c :: l)) = (false, c :: l)
  rw [if_neg h1, if_neg h2]

theorem pyFloatOfChars_congr (cs0 cs1 : List Char)
    (h : stripSpaces cs0 = stripSpaces cs1) : pyFloatOfChars cs0 = pyFloatOfChars cs1 := by
  unfold pyFloatOfChars
  rw [h]

theorem removeCommas_id (s : String) (h : ∀ c ∈ s.data, c ≠ ',') :
    (removeCommas s).data = s.data := by
  show s.data.filter (fun c => c ≠ ',') = s.data
  rw [List.filter_eq_self]
  intro a ha
  simpa using h a ha

theorem pyFloatOfString_data (s : String) :
    pyFloatOfString s = pyFloatOfChars s.data := rfl

/-- A string stripping to empty (empty or whitespace-only) does not parse:
`float` raises `ValueError` on it, commas removed or not. -/
theorem parse_stripped_empty (s : String) (h : pyStrip s = "") :
    pyFloatOfString (removeCommas s) = Option.none := by
  have hstrip : stripSpaces s.data = [] := by
    have := congrArg String.data h
    simpa [pyStrip] using this
  have hall : ∀ c ∈ s.data, isSpaceChar c = true := all_of_stripSpaces_nil s.data hstrip
  have hnc : (removeCommas s).data = s.data := by
    refine removeCommas_id s (fun c hc e => ?_)
    subst e
    exact absurd (hall ',' hc) (by decide)
  rw [pyFloatOfString_data, hnc,
    pyFloatOfChars_congr s.data [] (by rw [hstrip]; rfl)]
  rfl

/-- A string whose stripped lowercase form is `"nan"` parses to NaN,
commas removed or not. -/
theorem parse_stripped_nan (s : String) (h : pyLower (pyStrip s) = "nan") :
    pyFloatOfString (removeCommas s) = some PyFloat.nan := by
  have hdata : (stripSpaces s.data).map lowerChar = ['n', 'a', 'n'] := by
    have := congrArg String.data h
    simpa [pyLower, pyStrip] using this
  obtain ⟨c1, c2, c3, hcore, h1, h2, h3⟩ :
      ∃ c1 c2 c3, stripSpaces s.data = [c1, c2, c3] ∧
        lowerChar c1 = 'n' ∧ lowerChar c2 = 'a' ∧ lowerChar c3 = 'n' := by
    rcases hl : stripSpaces s.data with _ | ⟨a, _ | ⟨b, _ | ⟨c, _ | ⟨d, t⟩⟩⟩⟩ <;>
      rw [hl] at hdata <;> simp at hdata
    exact ⟨a, b, c, rfl, hdata.1, hdata.2.1, hdata.2.2⟩
  have p1 := nan_char_props c1 'n' (Or.inl rfl) h1
  have p2 := nan_char_props c2 'a' (Or.inr rfl) h2
  have p3 := nan_char_props c3 'n' (Or.inl rfl) h3
  obtain ⟨pre, suf, hsplit, hpre, hsuf⟩ := stripSpaces_decomp s.data
  rw [hcore] at hsplit
  have hnc : (removeCommas s).data = s.data := by
    refine removeCommas_id s (fun a ha e => ?_)
    subst e
    rw [hsplit] at ha
    rcases List.mem_append.mp ha with h' | h'
    · rcases List.mem_append.mp h' with h'' | h''
      · exact absurd (hpre ',' h'') (by decide)
      · simp only [List.mem_cons, List.not_mem_nil, or_false] at h''
        rcases h'' with e | e | e
        · exact p1.2.1 e.symm
        · exact p2.2.1 e.symm
        · exact p3.2.1 e.symm
    · exact absurd (hsuf ',' h') (by decide)
  have hfix : stripSpaces [c1, c2, c3] = [c1, c2, c3] := by
    have hh : ∀ c l2, ([c1, c2, c3] : List Char) = c :: l2 → isSpaceChar c = false := by
      intro c l2 he
      injection he with he1 _
      rw [← he1]
      exact p1.1
    have hl : ∀ c l2, ([c1, c2, c3] : List Char).reverse = c :: l2 → isSpaceChar c = false := by
      intro c l2 he
      rw [show ([c1, c2, c3] : List Char).reverse = [c3, c2, c1] from rfl] at he
      injection he with he1 _
      rw [← he1]
      exact p3.1
    have := stripSpaces_sandwich [] [c1, c2, c3] [] (by simp) (by simp) hh hl
    simpa using this
  rw [pyFloatOfString_data, hnc,
    pyFloatOfChars_congr s.data [c1, c2, c3] (by rw [hcore, hfix])]
  simp only [pyFloatOfChars, hfix, parseSign_other c1 [c2, c3] p1.2.2.1 p1.2.2.2,
    List.map_cons, List.map_nil, h1, h2, h3]
  rw [if_neg (by decide), if_pos (by decide)]

/-- L2: a missing value is returned unchanged by `format_numeric_value`
(with an `Except.ok` result). -/
theorem format_missing_unchanged (v : Value) (h : is_missing_value v = true) :
    format_numeric_value v = .ok v := by
  cases v with
  | none => rfl
  | nan => rfl
  | int n => exact absurd h (by simp [is_missing_value])
  | float q => exact absurd h (by simp [is_missing_value])
  | str s =>
      by_cases hg : formatGuard (Value.str s) = true
      · unfold format_numeric_value
        rw [if_pos hg]
      · unfold format_numeric_value
        rw [if_neg (by simp [hg])]
        have hms : pyStrip s = "" ∨ pyLower (pyStrip s) = "nan" := by
          simpa [is_missing_value] using h

        show (match pyFloat (Value.str s) with
          | .error _ => Except.ok (Value.str s)
          | .ok (.finite q) =>
              Except.ok (Value.str (if ((ratTrunc q : ℤ) : ℚ) = q then renderInt (ratTrunc q)
                         else renderFloat2 q))
          | .ok .nan => Except.ok (Value.str s)
          | .ok .pinf => Except.error PyErr.overflowError
          | .ok .ninf => Except.error PyErr.overflowError) = Except.ok (Value.str s)
        rcases hms with hc | hc
        · show (match (match pyFloatOfString (removeCommas s) with
            | some f => Except.ok f
            | Option.none => Except.error PyErr.valueError : Except PyErr PyFloat) with
            | .error _ => Except.ok (Value.str s)
            | .ok (.finite q) =>
                Except.ok (Value.str (if ((ratTrunc q : ℤ) : ℚ) = q then renderInt (ratTrunc q)
                           else renderFloat2 q))
            | .ok .nan => Except.ok (Value.str s)
            | .ok .pinf => Except.error PyErr.overflowError
            | .ok .ninf => Except.error PyErr.overflowError) = Except.ok (Value.str s)
          rw [parse_stripped_empty s hc]
        · show (match (match pyFloatOfString (removeCommas s) with
            | some f => Except.ok f
            | Option.none => Except.error PyErr.valueError : Except PyErr PyFloat) with
            | .error _ => Except.ok (Value.str s)
            | .ok (.finite q) =>
                Except.ok (Value.str (if ((ratTrunc q : ℤ) : ℚ) = q then renderInt (ratTrunc q)
                           else renderFloat2 q))
            | .ok .nan => Except.ok (Value.str s)
            | .ok .pinf => Except.error PyErr.overflowError
            | .ok .ninf => Except.error PyErr.overflowError) = Except.ok (Value.str s)
          rw [parse_stripped_nan s hc]

/-! ### Rendered strings contain a digit -/

theorem digitChar_digit (d : Nat) (h : d < 10) : isDigitChar (digitChar d) = true := by
  interval_cases d <;> decide

theorem natDigitsGo_succ (fuel n : Nat) (acc : List Char) :
    natDigitsGo (fuel + 1) n acc =
      if n < 10 then digitChar n :: acc
      else natDigitsGo fuel (n / 10) (digitChar (n % 10) :: acc) := rfl

theorem natDigitsGo_digits (fuel : Nat) : ∀ (n : Nat) (acc : List Char),
    (∀ c ∈ acc, isDigitChar c = true) →
    ∀ c ∈ natDigitsGo fuel n acc, isDigitChar c = true := by
  induction fuel with
  | zero => intro n acc hacc; exact hacc
  | succ fuel ih =>
      intro n acc hacc c hc
      rw [natDigitsGo_succ] at hc
      by_cases hn : n < 10
      · rw [if_pos hn] at hc
        rcases List.mem_cons.mp hc with rfl | hc2
        · exact digitChar_digit n hn
        · exact hacc c hc2
      · rw [if_neg hn] at hc
        refine ih (n / 10) _ ?_ c hc
        intro c' hc'
        rcases List.mem_cons.mp hc' with rfl | hc2
        · exact digitChar_digit (n % 10) (Nat.mod_lt n (by omega))
        · exact hacc c' hc2

theorem natDigitsGo_ne_nil (fuel : Nat) : ∀ (n : Nat) (acc : List Char),
    acc ≠ [] → natDigitsGo fuel n acc ≠ [] := by
  induction fuel with
  | zero => intro n acc h; exact h
  | succ fuel ih =>
      intro n acc h
      rw [natDigitsGo_succ]
      by_cases hn : n < 10
      · rw [if_pos hn]
        exact List.cons_ne_nil _ _
      · rw [if_neg hn]
        exact ih (n / 10) _ (List.cons_ne_nil _ _)

theorem natDigits_ne_nil (n : Nat) : natDigits n ≠ [] := by
  unfold natDigits
  rw [natDigitsGo_succ]
  by_cases hn : n < 10
  · rw [if_pos hn]
    exact List.cons_ne_nil _ _
  · rw [if_neg hn]
    exact natDigitsGo_ne_nil n (n / 10) _ (List.cons_ne_nil _ _)

theorem natDigits_digits (n : Nat) : ∀ c ∈ natDigits n, isDigitChar c = true :=
  natDigitsGo_digits (n + 1) n [] (by simp)

theorem commaRev_mem (l : List Char) : ∀ (k : Nat) (c : Char), c ∈ l → c ∈ commaRev k l := by
  induction l with
  | nil => intro k c h; exact absurd h (List.not_mem_nil c)
  | cons d rest ih =>
      intro k c h
      unfold commaRev
      rcases List.mem_cons.mp h with rfl | h2
      · split
        · exact List.mem_cons_of_mem _ (List.mem_cons_self _ _)
        · exact List.mem_cons_self _ _
      · split
        · exact List.mem_cons_of_mem _ (List.mem_cons_of_mem _ (ih 1 c h2))
        · exact List.mem_cons_of_mem _ (ih (k + 1) c h2)

theorem string_data_append (a b : String) : (a ++ b).data = a.data ++ b.data := rfl

theorem groupDigits_has_digit (n : Nat) :
    ∃ c ∈ (groupDigits n).data, isDigitChar c = true := by
  rcases hne : natDigits n with _ | ⟨d, t⟩
  · exact absurd hne (natDigits_ne_nil n)
  · have hd : d ∈ natDigits n := by rw [hne]; exact List.mem_cons_self d t
    refine ⟨d, ?_, natDigits_digits n d hd⟩
    show d ∈ (commaRev 0 (natDigits n).reverse).reverse
    rw [List.mem_reverse]
    exact commaRev_mem _ 0 d (List.mem_reverse.mpr hd)

theorem renderInt_has_digit (k : ℤ) : ∃ c ∈ (renderInt k).data, isDigitChar c = true := by
  obtain ⟨c, hc, hdig⟩ := groupDigits_has_digit k.natAbs
  refine ⟨c, ?_, hdig⟩
  show c ∈ ((if k < 0 then "-" else "") ++ groupDigits k.natAbs).data
  rw [string_data_append, List.mem_append]
  exact Or.inr hc

theorem renderFloat2_has_digit (q : ℚ) :
    ∃ c ∈ (renderFloat2 q).data, isDigitChar c = true := by
  refine ⟨digitChar ((roundHalfEven ((if q < 0 then -q else q) * 100)).toNat % 10), ?_,
    digitChar_digit _ (Nat.mod_lt _ (by omega))⟩
  show _ ∈ ((if q < 0 then "-" else "") ++ groupDigits _ ++ "." ++ String.mk _).data
  rw [string_data_append, List.mem_append]
  refine Or.inr ?_
  show _ ∈ [digitChar _, digitChar _]
  simp

/-! ### A digit-containing string is neither missing nor infinite -/

theorem digit_in_strip (l : List Char) (d : Char) (hd : d ∈ l)
    (hdig : isDigitChar d = true) : d ∈ stripSpaces l := by
  obtain ⟨pre, suf, hsplit, hpre, hsuf⟩ := stripSpaces_decomp l
  rw [hsplit] at hd
  rcases List.mem_append.mp hd with h' | h'
  · rcases List.mem_append.mp h' with h'' | h''
    · exact absurd (hpre d h'') (by simp [digit_not_space d hdig])
    · exact h''
  · exact absurd (hsuf d h') (by simp [digit_not_space d hdig])

theorem nonmissing_of_digit (R : String) (h : ∃ c ∈ R.data, isDigitChar c = true) :
    is_missing_value (Value.str R) = false := by
  obtain ⟨d, hd, hdig⟩ := h
  have hmem : d ∈ stripSpaces R.data := digit_in_strip _ _ hd hdig
  have h1 : pyStrip R ≠ "" := by
    intro he
    have h2 : stripSpaces R.data = [] := by
      have := congrArg String.data he
      simpa [pyStrip] using this
    rw [h2] at hmem
    exact absurd hmem (List.not_mem_nil d)
  have h2 : pyLower (pyStrip R) ≠ "nan" := by
    intro he
    have hdata : (stripSpaces R.data).map lowerChar = ['n', 'a', 'n'] := by
      have := congrArg String.data he
      simpa [pyLower, pyStrip] using this
    have hmem2 : lowerChar d ∈ (['n', 'a', 'n'] : List Char) :=
      hdata ▸ List.mem_map_of_mem lowerChar hmem
    rw [lowerChar_digit d hdig] at hmem2
    simp only [List.mem_cons, List.not_mem_nil, or_false] at hmem2
    rcases hmem2 with e | e | e <;> (subst e; exact absurd hdig (by decide))
  show (pyStrip R == "" || pyLower (pyStrip R) == "nan") = false
  rw [Bool.or_eq_false_iff]
  constructor
  · exact beq_eq_false_iff_ne.mpr h1
  · exact beq_eq_false_iff_ne.mpr h2

theorem parseSign_digit_mem (cs : List Char) (d : Char) (hd : d ∈ cs)
    (hdig : isDigitChar d = true) : d ∈ (parseSign cs).2 := by
  cases cs with
  | nil => exact absurd hd (List.not_mem_nil d)
  | cons c0 rest =>
      show d ∈ (if c0 = '+' then ((false, rest) : Bool × List Char)
          else if c0 = '-' then (true, rest) else (false, c0 :: rest)).2
      by_cases h0 : c0 = '+'
      · rw [if_pos h0]
        rcases List.mem_cons.mp hd with rfl | h2
        · rw [h0] at hdig; exact absurd hdig (by decide)
        · exact h2
      · rw [if_neg h0]
        by_cases h1 : c0 = '-'
        · rw [if_pos h1]
          rcases List.mem_cons.mp hd with rfl | h2
          · rw [h1] at hdig; exact absurd hdig (by decide)
          · exact h2
        · rw [if_neg h1]
          exact hd

theorem parseNumberTail_not_inf (b : Bool) (cs : List Char) :
    parseNumberTail b cs ≠ some PyFloat.pinf ∧ parseNumberTail b cs ≠ some PyFloat.ninf := by
  constructor <;>
    · intro h
      simp only [parseNumberTail] at h
      split at h
      · split at h
        · exact absurd h (by simp)
        · split at h
          · exact absurd h (by simp)
          · exact absurd h (by simp)
      · exact absurd h (by simp)

theorem pyFloatOfChars_inf_shape (cs0 : List Char)
    (h : pyFloatOfChars cs0 = some PyFloat.pinf ∨ pyFloatOfChars cs0 = some PyFloat.ninf) :
    (parseSign (stripSpaces cs0)).2.map lowerChar = "inf".data ∨
    (parseSign (stripSpaces cs0)).2.map lowerChar = "infinity".data := by
  by_cases hc : (parseSign (stripSpaces cs0)).2.map lowerChar = "inf".data ∨
      (parseSign (stripSpaces cs0)).2.map lowerChar = "infinity".data
  · exact hc
  · exfalso
    simp only [pyFloatOfChars] at h
    rw [if_neg hc] at h
    rcases h with h | h
    · split at h
      · exact absurd h (by simp)
      · exact absurd h (parseNumberTail_not_inf _ _).1
    · split at h
      · exact absurd h (by simp)
      · exact absurd h (parseNumberTail_not_inf _ _).2

theorem parse_not_inf_of_digit (R : String) (hdig : ∃ c ∈ R.data, isDigitChar c = true) :
    pyFloatOfString (removeCommas R) ≠ some PyFloat.pinf ∧
    pyFloatOfString (removeCommas R) ≠ some PyFloat.ninf := by
  obtain ⟨d, hd, hdg⟩ := hdig
  have hd2 : d ∈ (removeCommas R).data := by
    show d ∈ R.data.filter (fun c => c ≠ ',')
    rw [List.mem_filter]
    exact ⟨hd, by simpa using digit_ne_comma d hdg⟩
  have key : ∀ h : pyFloatOfString (removeCommas R) = some PyFloat.pinf ∨
      pyFloatOfString (removeCommas R) = some PyFloat.ninf, False := by
    intro h
    have hshape := pyFloatOfChars_inf_shape (removeCommas R).data h
    have hd3 : d ∈ stripSpaces (removeCommas R).data := digit_in_strip _ _ hd2 hdg
    have hd4 : d ∈ (parseSign (stripSpaces (removeCommas R).data)).2 :=
      parseSign_digit_mem _ _ hd3 hdg
    have hd5 : lowerChar d ∈ (parseSign (stripSpaces (removeCommas R).data)).2.map lowerChar :=
      List.mem_map_of_mem lowerChar hd4
    rw [lowerChar_digit d hdg] at hd5
    rcases hshape with he | he
    · rw [he, show ("inf".data : List Char) = ['i', 'n', 'f'] from rfl] at hd5
      simp only [List.mem_cons, List.not_mem_nil, or_false] at hd5
      rcases hd5 with e | e | e <;> (subst e; exact absurd hdg (by decide))
    · rw [he, show ("infinity".data : List Char)
          = ['i', 'n', 'f', 'i', 'n', 'i', 't', 'y'] from rfl] at hd5
      simp only [List.mem_cons, List.not_mem_nil, or_false] at hd5
      rcases hd5 with e | e | e | e | e | e | e | e <;> (subst e; exact absurd hdg (by decide))
  exact ⟨fun h => key (Or.inl h), fun h => key (Or.inr h)⟩

/-! ### Structure lemmas for format_numeric_value -/

theorem format_guard_eq (v : Value) (h : formatGuard v = true) :
    format_numeric_value v = .ok v := by
  unfold format_numeric_value
  rw [if_pos h]

theorem format_numeric_value_eq (v : Value) (hg : ¬formatGuard v = true) :
    format_numeric_value v =
      match pyFloat v with
      | .error _ => .ok v
      | .ok (.finite q) =>
          .ok (.str (if ((ratTrunc q : ℤ) : ℚ) = q then renderInt (ratTrunc q)
                     else renderFloat2 q))
      | .ok .nan => .ok v
      | .ok .pinf => .error PyErr.overflowError
      | .ok .ninf => .error PyErr.overflowError := by
  unfold format_numeric_value
  rw [if_neg hg]

theorem guard_missing (v : Value) (h : formatGuard v = true) :
    is_missing_value v = true := by
  cases v with
  | none => rfl
  | nan => rfl
  | str s =>
      have hs : s = "" ∨ s = "nan" := by
        simpa [formatGuard, pyIsna, valueEqStr] using h
      rcases hs with rfl | rfl <;> decide
  | int n => exact absurd h (by simp [formatGuard, pyIsna, valueEqStr])
  | float q => exact absurd h (by simp [formatGuard, pyIsna, valueEqStr])

theorem pyFloat_str_inf (R : String) (b : Bool)
    (hp : pyFloat (Value.str R) = .ok (if b then PyFloat.pinf else PyFloat.ninf)) :
    pyFloatOfString (removeCommas R) = some (if b then PyFloat.pinf else PyFloat.ninf) := by
  have hp2 : (match pyFloatOfString (removeCommas R) with
      | some f => (Except.ok f : Except PyErr PyFloat)
      | Option.none => Except.error PyErr.valueError)
      = .ok (if b then PyFloat.pinf else PyFloat.ninf) := hp
  rcases hpp : pyFloatOfString (removeCommas R) with _ | f2
  · rw [hpp] at hp2
    cases hp2
  · rw [hpp] at hp2
    injection hp2 with h2
    exact congrArg some h2

/-- The rendered string of the finite branch: whichever side of the
wholeness test is taken. -/
theorem rendered_has_digit (q : ℚ) :
    ∃ c ∈ ((if ((ratTrunc q : ℤ) : ℚ) = q then renderInt (ratTrunc q)
            else renderFloat2 q) : String).data, isDigitChar c = true := by
  by_cases hw : ((ratTrunc q : ℤ) : ℚ) = q
  · rw [if_pos hw]
    exact renderInt_has_digit (ratTrunc q)
  · rw [if_neg hw]
    exact renderFloat2_has_digit q

theorem format_rendered_ok (R : String) (hdig : ∃ c ∈ R.data, isDigitChar c = true) :
    ∃ u, format_numeric_value (Value.str R) = .ok u := by
  by_cases hg : formatGuard (Value.str R) = true
  · exact ⟨Value.str R, format_guard_eq _ hg⟩
  · rw [format_numeric_value_eq _ hg]
    rcases hp : pyFloat (Value.str R) with e | f
    · exact ⟨Value.str R, rfl⟩
    · cases f with
      | finite q => exact ⟨_, rfl⟩
      | nan => exact ⟨Value.str R, rfl⟩
      | pinf =>
          exact absurd (pyFloat_str_inf R true hp) (parse_not_inf_of_digit R hdig).1
      | ninf =>
          exact absurd (pyFloat_str_inf R false hp) (parse_not_inf_of_digit R hdig).2

/-- L3: a value that `format_numeric_value` accepts yields a value on
which `format_numeric_value` succeeds again (the second formatting pass in
`create_final_file` cannot raise on output of the first). -/
theorem format_format_ok (v w : Value) (h : format_numeric_value v = .ok w) :
    ∃ u, format_numeric_value w = .ok u := by
  by_cases hg : formatGuard v = true
  · have hv := format_guard_eq v hg
    rw [hv] at h
    injection h with h2
    subst h2
    exact ⟨v, hv⟩
  · rw [format_numeric_value_eq v hg] at h
    rcases hp : pyFloat v with e | f
    · rw [hp] at h
      injection h with h2
      subst h2
      exact ⟨v, by rw [format_numeric_value_eq v hg, hp]⟩
    · cases f with
      | finite q =>
          rw [hp] at h
          injection h with h2
          subst h2
          exact format_rendered_ok _ (rendered_has_digit q)
      | nan =>
          rw [hp] at h
          injection h with h2
          subst h2
          exact ⟨v, by rw [format_numeric_value_eq v hg, hp]⟩
      | pinf =>
          rw [hp] at h
          cases h
      | ninf =>
          rw [hp] at h
          cases h

/-- L1: formatting preserves missingness on every accepted value. -/
theorem format_preserves_missingness (v w : Value)
    (h : format_numeric_value v = .ok w) :
    is_missing_value w = is_missing_value v := by
  by_cases hm : is_missing_value v = true
  · rw [format_missing_unchanged v hm] at h
    injection h with h2
    rw [← h2]
  · have hm' : is_missing_value v = false := by
      cases hmv : is_missing_value v
      · rfl
      · exact absurd hmv hm
    rw [hm']
    by_cases hg : formatGuard v = true
    · exact absurd (guard_missing v hg) hm
    · rw [format_numeric_value_eq v hg] at h
      rcases hp : pyFloat v with e | f
      · rw [hp] at h
        injection h with h2
        rw [← h2]
        exact hm'
      · cases f with
        | finite q =>
            rw [hp] at h
            injection h with h2
            rw [← h2]
            exact nonmissing_of_digit _ (rendered_has_digit q)
        | nan =>
            rw [hp] at h
            injection h with h2
            rw [← h2]
            exact hm'
        | pinf =>
            rw [hp] at h
            cases h
        | ninf =>
            rw [hp] at h
            cases h

/-- Reduction of `pyFloat` on a string to the parser. -/
theorem pyFloat_str (s : String) :
    pyFloat (Value.str s) =
      (match pyFloatOfString (removeCommas s) with
       | some f => (Except.ok f : Except PyErr PyFloat)
       | Option.none => Except.error PyErr.valueError) := rfl

/-- C10: numeric formatting preserves missingness — a missing value is
returned unchanged, and the result of formatting any accepted value is
missing exactly when the input was. -/
theorem c10_format_preserves_missingness (v : Value) :
    (is_missing_value v = true → format_numeric_value v = .ok v) ∧
    (∀ w, format_numeric_value v = .ok w → is_missing_value w = is_missing_value v) :=
  ⟨format_missing_unchanged v, fun w h => format_preserves_missingness v w h⟩

/-- C10 witness: a whitespace-only cell is returned unchanged, and a
formatted numeric cell is still non-missing. -/
theorem c10_witness :
    is_missing_value (Value.str " ") = true ∧
    format_numeric_value (Value.str " ") = .ok (Value.str " ") ∧
    is_missing_value (Value.str "1,000") = is_missing_value (Value.str "1000") := by
  refine ⟨by decide, (c10_format_preserves_missingness (Value.str " ")).1 (by decide), ?_⟩
  have h : format_numeric_value (Value.str "1000") = .ok (Value.str "1,000") := by
    with_unfolding_all rfl
  exact (c10_format_preserves_missingness (Value.str "1000")).2 (Value.str "1,000") h

/-- C3 (amended): on values whose comma-stripped form parses to a finite
float, `format_numeric_value` renders the integer with comma separators
when the value is whole and the two-decimal comma-formatted string
otherwise (`"1000"` to `"1,000"`, `"1000.5"` to `"1,000.50"`); values that
fail to parse, or parse to NaN, are returned unchanged, as are the
guard values (`NaN`/`None`, `""`, `"nan"`); values parsing to ±infinity
raise an uncaught `OverflowError` instead of being returned. -/
theorem c3_format_characterization :
    (∀ (s : String) (q : ℚ), formatGuard (Value.str s) = false →
        pyFloatOfString (removeCommas s) = some (PyFloat.finite q) →
        format_numeric_value (Value.str s) =
          .ok (.str (if ((ratTrunc q : ℤ) : ℚ) = q then renderInt (ratTrunc q)
                     else renderFloat2 q))) ∧
    format_numeric_value (Value.str "1000") = .ok (Value.str "1,000") ∧
    format_numeric_value (Value.str "1000.5") = .ok (Value.str "1,000.50") ∧
    (∀ s : String, formatGuard (Value.str s) = false →
        pyFloatOfString (removeCommas s) = Option.none →
        format_numeric_value (Value.str s) = .ok (Value.str s)) ∧
    (∀ s : String, formatGuard (Value.str s) = false →
        pyFloatOfString (removeCommas s) = some PyFloat.nan →
        format_numeric_value (Value.str s) = .ok (Value.str s)) ∧
    (∀ s : String, formatGuard (Value.str s) = false →
        (pyFloatOfString (removeCommas s) = some PyFloat.pinf ∨
         pyFloatOfString (removeCommas s) = some PyFloat.ninf) →
        format_numeric_value (Value.str s) = .error PyErr.overflowError) ∧
    (∀ v : Value, formatGuard v = true → format_numeric_value v = .ok v) := by
  refine ⟨?_, by with_unfolding_all rfl, by with_unfolding_all rfl, ?_, ?_, ?_,
    fun v hg => format_guard_eq v hg⟩
  · intro s q hg hp
    rw [format_numeric_value_eq _ (by simp [hg]),
      show pyFloat (Value.str s) = .ok (PyFloat.finite q) from by rw [pyFloat_str, hp]]
  · intro s hg hp
    rw [format_numeric_value_eq _ (by simp [hg]),
      show pyFloat (Value.str s) = .error PyErr.valueError from by rw [pyFloat_str, hp]]
  · intro s hg hp
    rw [format_numeric_value_eq _ (by simp [hg]),
      show pyFloat (Value.str s) = .ok PyFloat.nan from by rw [pyFloat_str, hp]]
  · intro s hg hp
    rcases hp with hp | hp <;>
      rw [format_numeric_value_eq _ (by simp [hg]),
        show pyFloat (Value.str s) = _ from by rw [pyFloat_str, hp]]

/-- C3 witness: a comma-separated decimal input taking the finite,
non-whole branch. -/
theorem c3_witness :
    formatGuard (Value.str "2,500.5") = false ∧
    pyFloatOfString (removeCommas "2,500.5") = some (PyFloat.finite (Rat.div 5001 2)) ∧
    format_numeric_value (Value.str "2,500.5") = .ok (Value.str "2,500.50") := by
  refine ⟨rfl, by with_unfolding_all rfl, ?_⟩
  have h := c3_format_characterization.1 "2,500.5" (Rat.div 5001 2) rfl
    (by with_unfolding_all rfl)
  exact h.trans (by with_unfolding_all rfl)

/-- C2 (corrected claim, counterexample): the string `"NaN"` is classified
as missing although it is neither empty, whitespace-only, nor the literal
string `"nan"` after stripping — the claimed characterization is wrong on
case variants of `"nan"`. -/
theorem c2_claim_counterexample :
    is_missing_value (Value.str "NaN") = true ∧
    ¬(pyStrip "NaN" = "" ∨ pyStrip "NaN" = "nan") := by
  exact ⟨rfl, by decide⟩

/-- C2 (amended): `is_missing_value` classifies a value as missing exactly
when it is `None`/NaN, or a string that after stripping surrounding
whitespace is empty or equals `"nan"` case-insensitively; non-string,
non-null values are never missing. -/
theorem c2_missing_value_characterization (v : Value) :
    is_missing_value v = true ↔
      (v = Value.none ∨ v = Value.nan ∨
        ∃ s, v = Value.str s ∧ (pyStrip s = "" ∨ pyLower (pyStrip s) = "nan")) := by
  cases v <;> simp [is_missing_value]

/-- C9: the `"nan"` test of `is_missing_value` is applied to the stripped,
lowercased string, so any case variant of `"nan"`, with any surrounding
whitespace, is classified as missing. -/
theorem c9_nan_case_insensitive (s : String)
    (h : pyLower (pyStrip s) = "nan") : is_missing_value (Value.str s) = true := by
  simp [is_missing_value, h]

/-- C9 witness: `"  NaN "` satisfies the hypothesis and is missing. -/
theorem c9_witness :
    pyLower (pyStrip "  NaN ") = "nan" ∧ is_missing_value (Value.str "  NaN ") = true :=
  ⟨by decide, c9_nan_case_insensitive "  NaN " (by decide)⟩

/-- C3 (corrected claim, counterexample): on `"inf"` the code neither
returns a formatted string nor returns the input unchanged — it raises an
uncaught `OverflowError` from `int(float("inf"))`. -/
theorem c3_claim_counterexample :
    format_numeric_value (Value.str "inf") = .error PyErr.overflowError := by
  with_unfolding_all rfl

/-- C4 (code bug): `format_numeric_value` is not total.  Strings parsing to
±infinity make `int(...)` raise `OverflowError`, which the
`except (ValueError, TypeError)` clause does not catch, contradicting the
intended catch-all error handling; in `create_final_file` the numeric
re-formatting loop runs outside any `try`, so the exception would
propagate out of the merge stage. -/
theorem c4_overflow_uncaught :
    format_numeric_value (Value.str "inf") = .error PyErr.overflowError ∧
    format_numeric_value (Value.str "-inf") = .error PyErr.overflowError ∧
    format_numeric_value (Value.str "Infinity") = .error PyErr.overflowError := by
  refine ⟨?_, ?_, ?_⟩ <;> with_unfolding_all rfl

/-- C1: a row is retained by the validation filter exactly when its count
of missing required fields is at most `MAX_MISSING_VALUES = 10`; a row of
the 19 required columns with exactly 10 missing fields is retained, one
with 11 is dropped. -/
theorem c1_validation_threshold :
    (∀ (cols : List String) (rows : List (List Value)) (row : List Value),
        row ∈ filterValidRows cols rows ↔
          row ∈ rows ∧
            count_missing_values (restrictRequired cols row) ≤ MAX_MISSING_VALUES) ∧
    count_missing_values (restrictRequired required_columns
      (List.replicate 10 (Value.str "") ++ List.replicate 9 (Value.str "x"))) = 10 ∧
    filterValidRows required_columns
      [List.replicate 10 (Value.str "") ++ List.replicate 9 (Value.str "x")] =
      [List.replicate 10 (Value.str "") ++ List.replicate 9 (Value.str "x")] ∧
    count_missing_values (restrictRequired required_columns
      (List.replicate 11 (Value.str "") ++ List.replicate 8 (Value.str "x"))) = 11 ∧
    filterValidRows required_columns
      [List.replicate 11 (Value.str "") ++ List.replicate 8 (Value.str "x")] = [] := by
  refine ⟨?_, by decide, by decide, by decide, by decide⟩
  intro cols rows row
  simp [filterValidRows, List.mem_filter, rowValid]

/-- C1 witness: a concrete row with ten missing required fields passes the
filter. -/
theorem c1_witness :
    (List.replicate 10 (Value.str "") ++ List.replicate 9 (Value.str "x"))
      ∈ filterValidRows required_columns
        [List.replicate 10 (Value.str "") ++ List.replicate 9 (Value.str "x")] :=
  (c1_validation_threshold.1 required_columns _ _).mpr ⟨List.mem_cons_self _ _, by decide⟩

/-- C2 witness: the amended characterization applied to a padded
mixed-case `"nan"`. -/
theorem c2_witness : is_missing_value (Value.str "  nAn ") = true :=
  (c2_missing_value_characterization (Value.str "  nAn ")).mpr
    (Or.inr (Or.inr ⟨"  nAn ", rfl, Or.inr (by decide)⟩))

/-! ### Writer lemmas -/

theorem setCell_ne (s : Sheet) (r c : Nat) (v : Value) (p : Nat × Nat)
    (h : p ≠ (r, c)) : setCell s r c v p = s p := if_neg h

theorem writeRowFrom_cons (s : Sheet) (r c : Nat) (v : Value) (vs : List Value) :
    writeRowFrom s r c (v :: vs) =
      writeRowFrom (if is_missing_value v then s else setCell s r c v) r (c + 1) vs := rfl

theorem writeRowFrom_base_ne (vs : List Value) (s : Sheet) (r c : Nat) (p : Nat × Nat)
    (h : ∀ c', c ≤ c' → p ≠ (r, c')) : writeRowFrom s r c vs p = s p := by
  induction vs generalizing s c with
  | nil => rfl
  | cons v vs ih =>
      rw [writeRowFrom_cons, ih _ _ (fun c' hc' => h c' (by omega))]
      by_cases hm : is_missing_value v = true
      · simp [hm]
      · simp only [hm, if_neg]
        exact setCell_ne _ _ _ _ _ (h c (Nat.le_refl c))

theorem writeRowFrom_ne_row (vs : List Value) (s : Sheet) (r c : Nat) (p : Nat × Nat)
    (h : p.1 ≠ r) : writeRowFrom s r c vs p = s p :=
  writeRowFrom_base_ne vs s r c p (fun c' _ hp => h (congrArg Prod.fst hp))

theorem writeRowFrom_lt_col (vs : List Value) (s : Sheet) (r c c' : Nat)
    (h : c' < c) : writeRowFrom s r c vs (r, c') = s (r, c') :=
  writeRowFrom_base_ne vs s r c (r, c')
    (fun c'' hc'' hp => by
      have : c' = c'' := congrArg Prod.snd hp
      omega)

theorem writeRowFrom_ge_col (vs : List Value) (s : Sheet) (r c c' : Nat)
    (h : c + vs.length ≤ c') : writeRowFrom s r c vs (r, c') = s (r, c') := by
  induction vs generalizing s c with
  | nil => rfl
  | cons v vs ih =>
      rw [writeRowFrom_cons, ih _ _ (by simp at h ⊢; omega)]
      by_cases hm : is_missing_value v = true
      · simp [hm]
      · simp only [hm, if_neg]
        refine setCell_ne _ _ _ _ _ (fun hp => ?_)
        have : c' = c := congrArg Prod.snd hp
        simp at h
        omega

theorem writeRowFrom_at (vs : List Value) (j : Nat) (s : Sheet) (r c : Nat)
    (h : j < vs.length) :
    writeRowFrom s r c vs (r, c + j) =
      (if is_missing_value (vs.getD j Value.none) then s (r, c + j)
       else vs.getD j Value.none) := by
  induction vs generalizing s c j with
  | nil => exact absurd h (Nat.not_lt_zero j)
  | cons v vs ih =>
      cases j with
      | zero =>
          show writeRowFrom (if is_missing_value v then s else setCell s r c v) r (c + 1) vs
              (r, c + 0) = if is_missing_value v = true then s (r, c + 0) else v
          rw [writeRowFrom_lt_col _ _ _ _ _ (by omega)]
          by_cases hm : is_missing_value v = true
          · simp [hm]
          · simp only [hm, if_neg]
            show setCell s r c v (r, c + 0) = v
            simp [setCell]
      | succ j =>
          show writeRowFrom (if is_missing_value v then s else setCell s r c v) r (c + 1) vs
              (r, c + (j + 1)) =
            if is_missing_value (vs.getD j Value.none) = true then s (r, c + (j + 1))
            else vs.getD j Value.none
          have hc : c + (j + 1) = (c + 1) + j := by omega
          rw [hc, ih j _ (c + 1) (by simpa using h)]
          by_cases hm : is_missing_value (vs.getD j Value.none) = true
          · rw [if_pos hm, if_pos hm]
            by_cases hmv : is_missing_value v = true
            · simp [hmv]
            · simp only [hmv, if_neg]
              refine setCell_ne _ _ _ _ _ (fun hp => ?_)
              have : c + 1 + j = c := congrArg Prod.snd hp
              omega
          · rw [if_neg hm, if_neg hm]

theorem writeRowsFrom_lt_row (rows : List (List Value)) (s : Sheet) (r : Nat)
    (p : Nat × Nat) (h : p.1 < r) : writeRowsFrom s r rows p = s p := by
  induction rows generalizing s r with
  | nil => rfl
  | cons row rest ih =>
      show writeRowsFrom (writeRowFrom s r 1 row) (r + 1) rest p = s p
      rw [ih _ _ (by omega)]
      exact writeRowFrom_ne_row _ _ _ _ _ (by omega)

theorem writeRowsFrom_ge_row (rows : List (List Value)) (s : Sheet) (r : Nat)
    (p : Nat × Nat) (h : r + rows.length ≤ p.1) : writeRowsFrom s r rows p = s p := by
  induction rows generalizing s r with
  | nil => rfl
  | cons row rest ih =>
      show writeRowsFrom (writeRowFrom s r 1 row) (r + 1) rest p = s p
      rw [ih _ _ (by simp at h ⊢; omega)]
      exact writeRowFrom_ne_row _ _ _ _ _ (by simp at h; omega)

theorem writeRowFrom_congr_row (vs : List Value) (s₁ s₂ : Sheet) (r c : Nat)
    (h : ∀ c', s₁ (r, c') = s₂ (r, c')) (c' : Nat) :
    writeRowFrom s₁ r c vs (r, c') = writeRowFrom s₂ r c vs (r, c') := by
  induction vs generalizing s₁ s₂ c with
  | nil => exact h c'
  | cons v vs ih =>
      show writeRowFrom (if is_missing_value v then s₁ else setCell s₁ r c v) r (c + 1) vs (r, c')
        = writeRowFrom (if is_missing_value v then s₂ else setCell s₂ r c v) r (c + 1) vs (r, c')
      apply ih
      intro c''
      split
      · exact h c''
      · show (fun q => if q = (r, c) then v else s₁ q) (r, c'')
          = (fun q => if q = (r, c) then v else s₂ q) (r, c'')
        simp only []
        split
        · rfl
        · exact h c''

theorem getD_of_getQ {α : Type} (l : List α) (n : Nat) (a d : α)
    (h : l.get? n = some a) : l.getD n d = a := by
  rw [List.get?_eq_getElem?] at h
  simp [List.getD, h]

theorem getQ_of_lt {α : Type} (l : List α) (n : Nat) (d : α) (h : n < l.length) :
    l.get? n = some (l.getD n d) := by
  rw [List.get?_eq_getElem?, List.getD]
  simp [List.getElem?_eq_getElem h]

theorem writeRowsFrom_at (rows : List (List Value)) (i : Nat) (row : List Value)
    (s : Sheet) (r c : Nat) (h : rows.get? i = some row) :
    writeRowsFrom s r rows (r + i, c) = writeRowFrom s (r + i) 1 row (r + i, c) := by
  induction rows generalizing s r i with
  | nil => simp at h
  | cons hd rest ih =>
      cases i with
      | zero =>
          have hhd : hd = row := by simpa using h
          subst hhd
          show writeRowsFrom (writeRowFrom s r 1 hd) (r + 1) rest (r + 0, c) = _
          rw [writeRowsFrom_lt_row _ _ _ _ (by omega)]
          rfl
      | succ i =>
          show writeRowsFrom (writeRowFrom s r 1 hd) (r + 1) rest (r + (i + 1), c) = _
          have hr : r + (i + 1) = (r + 1) + i := by omega
          rw [hr, ih _ _ _ (by simpa using h)]
          exact writeRowFrom_congr_row _ _ _ _ _
            (fun c' => writeRowFrom_ne_row _ _ _ _ _ (by omega)) c

/-- C7: round-trip — after the writer inserts the merged rows at the fixed
offset (row 15, column 1), the cell at row `15 + i`, column `1 + j` holds
exactly the merged value at row `i`, column `j`, for every position whose
value is non-missing. -/
theorem c7_roundtrip (tmpl : Sheet) (rows : List (List Value)) (i j : Nat)
    (row : List Value) (v : Value)
    (hrow : rows.get? i = some row) (hv : row.get? j = some v)
    (hnm : is_missing_value v = false) :
    writeData tmpl rows (15 + i, 1 + j) = v := by
  have hj : j < row.length := by
    rcases List.get?_eq_some.mp hv with ⟨h, _⟩
    exact h
  have hgd : row.getD j Value.none = v := getD_of_getQ row j v Value.none hv
  show writeRowsFrom tmpl 15 rows (15 + i, 1 + j) = v
  rw [writeRowsFrom_at rows i row tmpl 15 (1 + j) hrow,
    writeRowFrom_at row j tmpl (15 + i) 1 hj, hgd, hnm]
  simp

/-- C7 witness: a concrete write followed by a read-back at the offset. -/
theorem c7_witness :
    writeData (fun _ => Value.str "T") [[Value.str "A"]] (15, 1) = Value.str "A" :=
  c7_roundtrip (fun _ => Value.str "T") [[Value.str "A"]] 0 0 [Value.str "A"]
    (Value.str "A") rfl rfl rfl

/-- C6: sparse overwrite — a missing merged value is skipped, so the output
workbook keeps the copied template value at that position; and any
position where the output differs from the template is a data-region
position that received a non-missing merged value. -/
theorem c6_sparse_overwrite (tmpl : Sheet) (rows : List (List Value)) :
    (∀ i j row v, rows.get? i = some row → row.get? j = some v →
        is_missing_value v = true →
        writeData tmpl rows (15 + i, 1 + j) = tmpl (15 + i, 1 + j)) ∧
    (∀ p, writeData tmpl rows p ≠ tmpl p →
        ∃ i j row v, p = (15 + i, 1 + j) ∧ rows.get? i = some row ∧
          row.get? j = some v ∧ is_missing_value v = false ∧
          writeData tmpl rows p = v) := by
  constructor
  · intro i j row v hrow hv hm
    have hj : j < row.length := by
      rcases List.get?_eq_some.mp hv with ⟨h, _⟩
      exact h
    have hgd : row.getD j Value.none = v := getD_of_getQ row j v Value.none hv
    show writeRowsFrom tmpl 15 rows (15 + i, 1 + j) = tmpl (15 + i, 1 + j)
    rw [writeRowsFrom_at rows i row tmpl 15 (1 + j) hrow,
      writeRowFrom_at row j tmpl (15 + i) 1 hj, hgd, hm]
    simp
  · intro p hne
    rcases p with ⟨pr, pc⟩
    by_cases hr : pr < 15
    · exact absurd (writeRowsFrom_lt_row rows tmpl 15 (pr, pc) hr) hne
    · by_cases hrows : rows.get? (pr - 15) = Option.none
      · refine absurd ?_ hne
        show writeRowsFrom tmpl 15 rows (pr, pc) = tmpl (pr, pc)
        apply writeRowsFrom_ge_row
        have := List.get?_eq_none.mp hrows
        omega
      · rcases Option.ne_none_iff_exists'.mp hrows with ⟨row, hrow⟩
        have hpr : pr = 15 + (pr - 15) := by omega
        by_cases hc : pc = 0
        · refine absurd ?_ hne
          show writeRowsFrom tmpl 15 rows (pr, pc) = tmpl (pr, pc)
          rw [hpr, writeRowsFrom_at rows (pr - 15) row tmpl 15 pc hrow]
          subst hc
          exact writeRowFrom_lt_col row tmpl (15 + (pr - 15)) 1 0 Nat.zero_lt_one
        · have hpc : pc = 1 + (pc - 1) := by omega
          by_cases hj : pc - 1 < row.length
          · set j := pc - 1 with hjdef
            set v := row.getD j Value.none with hvdef
            have hv : row.get? j = some v := by
              rw [hvdef]
              exact getQ_of_lt row j Value.none hj
            by_cases hm : is_missing_value v = true
            · refine absurd ?_ hne
              show writeRowsFrom tmpl 15 rows (pr, pc) = tmpl (pr, pc)
              rw [hpr, hpc, writeRowsFrom_at rows (pr - 15) row tmpl 15 _ hrow,
                writeRowFrom_at row j tmpl (15 + (pr - 15)) 1 hj, ← hvdef, hm]
              simp
            · refine ⟨pr - 15, j, row, v, by rw [Prod.mk.injEq]; omega, hrow, hv,
                Bool.not_eq_true _ ▸ hm, ?_⟩
              show writeRowsFrom tmpl 15 rows (pr, pc) = v
              rw [hpr, hpc, writeRowsFrom_at rows (pr - 15) row tmpl 15 _ hrow,
                writeRowFrom_at row j tmpl (15 + (pr - 15)) 1 hj, ← hvdef]
              simp [hm]
          · refine absurd ?_ hne
            show writeRowsFrom tmpl 15 rows (pr, pc) = tmpl (pr, pc)
            rw [hpr, writeRowsFrom_at rows (pr - 15) row tmpl 15 pc hrow]
            apply writeRowFrom_ge_col
            omega

/-- C6 witness: writing a row whose only cell is missing leaves the
template value in place. -/
theorem c6_witness :
    writeData (fun _ => Value.str "T") [[Value.str ""]] (15, 1) = Value.str "T" :=
  (c6_sparse_overwrite (fun _ => Value.str "T") [[Value.str ""]]).1 0 0
    [Value.str ""] (Value.str "") rfl rfl rfl

/-! ### Lemmas about exceptMapList and exceptFoldList -/

theorem exceptMapList_ok_length {ε α β : Type} (f : α → Except ε β) :
    ∀ (l : List α) (l' : List β), exceptMapList f l = .ok l' → l'.length = l.length := by
  intro l
  induction l with
  | nil => intro l' h; injection h with h2; rw [← h2]; rfl
  | cons a l ih =>
      intro l' h
      unfold exceptMapList at h
      rcases hfa : f a with e | b
      · rw [hfa] at h; cases h
      · rw [hfa] at h
        rcases hrec : exceptMapList f l with e | bs
        · rw [hrec] at h; cases h
        · rw [hrec] at h
          injection h with h2
          rw [← h2]
          simp [ih bs hrec]

theorem exceptMapList_ok_mem {ε α β : Type} (f : α → Except ε β) :
    ∀ (l : List α) (l' : List β), exceptMapList f l = .ok l' →
      ∀ y ∈ l', ∃ x ∈ l, f x = .ok y := by
  intro l
  induction l with
  | nil =>
      intro l' h y hy
      injection h with h2
      rw [← h2] at hy
      exact absurd hy (List.not_mem_nil y)
  | cons a l ih =>
      intro l' h y hy
      unfold exceptMapList at h
      rcases hfa : f a with e | b
      · rw [hfa] at h; cases h
      · rw [hfa] at h
        rcases hrec : exceptMapList f l with e | bs
        · rw [hrec] at h; cases h
        · rw [hrec] at h
          injection h with h2
          rw [← h2] at hy
          rcases List.mem_cons.mp hy with rfl | hy2
          · exact ⟨a, List.mem_cons_self a l, hfa⟩
          · obtain ⟨x, hx, hfx⟩ := ih bs hrec y hy2
            exact ⟨x, List.mem_cons_of_mem a hx, hfx⟩

theorem exceptMapList_ok_of_all {ε α β : Type} (f : α → Except ε β) :
    ∀ (l : List α), (∀ x ∈ l, ∃ y, f x = .ok y) →
      ∃ l', exceptMapList f l = .ok l' := by
  intro l
  induction l with
  | nil => intro _; exact ⟨[], rfl⟩
  | cons a l ih =>
      intro h
      obtain ⟨b, hb⟩ := h a (List.mem_cons_self a l)
      obtain ⟨bs, hbs⟩ := ih (fun x hx => h x (List.mem_cons_of_mem a hx))
      refine ⟨b :: bs, ?_⟩
      unfold exceptMapList
      rw [hb, hbs]

/-! ### set / getD small lemmas -/

theorem getD_set_self {α : Type} : ∀ (l : List α) (i : Nat) (a d : α), i < l.length →
    (l.set i a).getD i d = a := by
  intro l
  induction l with
  | nil => intro i a d h; exact absurd h (by simp)
  | cons x rest ih =>
      intro i a d h
      cases i with
      | zero => rfl
      | succ i => exact ih i a d (by simpa using h)

theorem getD_set_ne {α : Type} : ∀ (l : List α) (i j : Nat) (a d : α), i ≠ j →
    (l.set i a).getD j d = l.getD j d := by
  intro l
  induction l with
  | nil => intro i j a d h; cases i <;> rfl
  | cons x rest ih =>
      intro i j a d h
      cases i with
      | zero =>
          cases j with
          | zero => exact absurd rfl h
          | succ j => rfl
      | succ i =>
          cases j with
          | zero => rfl
          | succ j => exact ih i j a d (fun e => h (by rw [e]))

theorem getQ_set_self {α : Type} : ∀ (l : List α) (i : Nat) (a : α), i < l.length →
    (l.set i a).get? i = some a := by
  intro l
  induction l with
  | nil => intro i a h; exact absurd h (by simp)
  | cons x rest ih =>
      intro i a h
      cases i with
      | zero => rfl
      | succ i => exact ih i a (by simpa using h)

theorem getQ_set_ne {α : Type} : ∀ (l : List α) (i j : Nat) (a : α), i ≠ j →
    (l.set i a).get? j = l.get? j := by
  intro l
  induction l with
  | nil => intro i j a h; cases i <;> rfl
  | cons x rest ih =>
      intro i j a h
      cases i with
      | zero =>
          cases j with
          | zero => exact absurd rfl h
          | succ j => rfl
      | succ i =>
          cases j with
          | zero => rfl
          | succ j => exact ih i j a (fun e => h (by rw [e]))

/-! ### colIndex? and lookupCell lemmas -/

theorem colIndex?_some_get (c : String) :
    ∀ (cols : List String) (i : Nat), colIndex? c cols = some i → cols.get? i = some c := by
  intro cols
  induction cols with
  | nil => intro i h; cases h
  | cons x rest ih =>
      intro i h
      unfold colIndex? at h
      by_cases hx : x = c
      · rw [if_pos hx] at h
        injection h with h2
        rw [← h2, hx]
        rfl
      · rw [if_neg hx] at h
        rcases hrec : colIndex? c rest with _ | j
        · rw [hrec] at h; cases h
        · rw [hrec] at h
          injection h with h2
          rw [← h2]
          exact ih j hrec

theorem colIndex?_mem (c : String) :
    ∀ cols : List String, c ∈ cols → ∃ i, colIndex? c cols = some i := by
  intro cols
  induction cols with
  | nil => intro h; exact absurd h (List.not_mem_nil c)
  | cons x rest ih =>
      intro h
      by_cases hx : x = c
      · exact ⟨0, by unfold colIndex?; rw [if_pos hx]⟩
      · rcases List.mem_cons.mp h with e | h2
        · exact absurd e.symm hx
        · obtain ⟨j, hj⟩ := ih h2
          exact ⟨j + 1, by unfold colIndex?; rw [if_neg hx, hj]; rfl⟩

theorem colIndex?_lt (c : String) (cols : List String) (i : Nat)
    (h : colIndex? c cols = some i) : i < cols.length := by
  rcases List.get?_eq_some.mp (colIndex?_some_get c cols i h) with ⟨hlt, _⟩
  exact hlt

theorem lookupCell_eq (cols : List String) (row : List Value) (c : String) (i : Nat)
    (h : colIndex? c cols = some i) : lookupCell cols row c = row.getD i Value.none := by
  unfold lookupCell
  rw [h]

/-! ### Lemmas about the numeric-column formatting of one row -/

theorem formatCellAt_none (cols : List String) (r : List Value) (c : String)
    (hci : colIndex? c cols = Option.none) : formatCellAt cols r c = .ok r := by
  unfold formatCellAt
  rw [hci]

theorem formatCellAt_oob (cols : List String) (r : List Value) (c : String) (i : Nat)
    (hci : colIndex? c cols = some i) (hrv : r.get? i = Option.none) :
    formatCellAt cols r c = .ok r := by
  unfold formatCellAt
  rw [hci]
  show (match r.get? i with
      | Option.none => (Except.ok r : Except PyErr (List Value))
      | some v =>
          match format_numeric_value v with
          | Except.error e => Except.error e
          | Except.ok w => Except.ok (r.set i w)) = Except.ok r
  rw [hrv]

theorem formatCellAt_eq2 (cols : List String) (r : List Value) (c : String) (i : Nat)
    (v : Value) (hci : colIndex? c cols = some i) (hrv : r.get? i = some v) :
    formatCellAt cols r c =
      (match format_numeric_value v with
       | Except.error e => Except.error e
       | Except.ok w => Except.ok (r.set i w)) := by
  unfold formatCellAt
  rw [hci]
  show (match r.get? i with
      | Option.none => (Except.ok r : Except PyErr (List Value))
      | some v =>
          match format_numeric_value v with
          | Except.error e => Except.error e
          | Except.ok w => Except.ok (r.set i w)) = _
  rw [hrv]

theorem formatCellAt_cases (cols : List String) (r : List Value) (c : String) (r' : List Value)
    (h : formatCellAt cols r c = .ok r') :
    r' = r ∨ ∃ i v w, colIndex? c cols = some i ∧ r.get? i = some v ∧
      format_numeric_value v = .ok w ∧ r' = r.set i w := by
  rcases hci : colIndex? c cols with _ | i
  · rw [formatCellAt_none cols r c hci] at h
    injection h with h2
    exact Or.inl h2.symm
  · rcases hrv : r.get? i with _ | v
    · rw [formatCellAt_oob cols r c i hci hrv] at h
      injection h with h2
      exact Or.inl h2.symm
    · rw [formatCellAt_eq2 cols r c i v hci hrv] at h
      rcases hf : format_numeric_value v with e | w
      · rw [hf] at h; cases h
      · rw [hf] at h
        injection h with h3
        exact Or.inr ⟨i, v, w, by simp [hci], hrv, hf, h3.symm⟩

theorem formatCellAt_length (cols : List String) (r : List Value) (c : String)
    (r' : List Value) (h : formatCellAt cols r c = .ok r') : r'.length = r.length := by
  rcases formatCellAt_cases cols r c r' h with rfl | ⟨i, v, w, _, _, _, rfl⟩
  · rfl
  · exact List.length_set r i w

theorem formatCellAt_missing (cols : List String) (r : List Value) (c : String)
    (r' : List Value) (h : formatCellAt cols r c = .ok r') (j : Nat) (d : Value) :
    is_missing_value (r'.getD j d) = is_missing_value (r.getD j d) := by
  rcases formatCellAt_cases cols r c r' h with rfl | ⟨i, v, w, _, hrv, hf, rfl⟩
  · rfl
  · by_cases hij : i = j
    · subst hij
      have hlt : i < r.length := by
        rcases List.get?_eq_some.mp hrv with ⟨hlt, _⟩
        exact hlt
      rw [getD_set_self r i w d hlt, getD_of_getQ r i v d hrv]
      exact format_preserves_missingness v w hf
    · rw [getD_set_ne r i j w d hij]

theorem formatRow_ok_length (cols : List String) :
    ∀ (L : List String) (r r' : List Value),
      exceptFoldList (formatCellAt cols) r L = .ok r' → r'.length = r.length := by
  intro L
  induction L with
  | nil => intro r r' h; injection h with h2; rw [← h2]
  | cons c L ih =>
      intro r r' h
      unfold exceptFoldList at h
      rcases hc : formatCellAt cols r c with e | r1
      · rw [hc] at h; cases h
      · rw [hc] at h
        rw [ih r1 r' h]
        exact formatCellAt_length cols r c r1 hc

theorem formatRow_ok_missing (cols : List String) :
    ∀ (L : List String) (r r' : List Value),
      exceptFoldList (formatCellAt cols) r L = .ok r' →
      ∀ (j : Nat) (d : Value),
        is_missing_value (r'.getD j d) = is_missing_value (r.getD j d) := by
  intro L
  induction L with
  | nil =>
      intro r r' h j d
      injection h with h2
      rw [← h2]
  | cons c L ih =>
      intro r r' h j d
      unfold exceptFoldList at h
      rcases hc : formatCellAt cols r c with e | r1
      · rw [hc] at h; cases h
      · rw [hc] at h
        rw [ih r1 r' h j d]
        exact formatCellAt_missing cols r c r1 hc j d

/-- Through a successful fold, a cell holding some output of
`format_numeric_value` keeps holding some output of it (a step either
leaves it alone or overwrites it with another output). -/
theorem formatRow_preserve_cell (cols : List String) :
    ∀ (L : List String) (r r' : List Value),
      exceptFoldList (formatCellAt cols) r L = .ok r' →
      ∀ i w, r.get? i = some w → (∃ u, format_numeric_value u = .ok w) →
        ∃ w', r'.get? i = some w' ∧ ∃ u', format_numeric_value u' = .ok w' := by
  intro L
  induction L with
  | nil =>
      intro r r' h i w hcell hu
      injection h with h2
      rw [← h2]
      exact ⟨w, hcell, hu⟩
  | cons c L ih =>
      intro r r' h i w hcell hu
      unfold exceptFoldList at h
      rcases hc : formatCellAt cols r c with e | r1
      · rw [hc] at h; cases h
      · rw [hc] at h
        rcases formatCellAt_cases cols r c r1 hc with rfl | ⟨i1, v1, w1, _, hv1, hf1, rfl⟩
        · exact ih r1 r' h i w hcell hu
        · by_cases hii : i1 = i
          · subst hii
            have hlt1 : i1 < r.length := by
              rcases List.get?_eq_some.mp hv1 with ⟨hlt1, _⟩
              exact hlt1
            exact ih _ r' h i1 w1 (getQ_set_self r i1 w1 hlt1) ⟨v1, hf1⟩
          · exact ih _ r' h i w (by rw [getQ_set_ne r i1 i w1 hii]; exact hcell) hu

/-- After a successful fold, the cell at the position of any column of `L`
holds some `format_numeric_value` output. -/
theorem formatRow_ok_touched (cols : List String) :
    ∀ (L : List String) (r r' : List Value),
      exceptFoldList (formatCellAt cols) r L = .ok r' →
      ∀ c ∈ L, ∀ i, colIndex? c cols = some i → i < r.length →
        ∃ w, r'.get? i = some w ∧ ∃ u, format_numeric_value u = .ok w := by
  intro L
  induction L with
  | nil => intro r r' h c hc; exact absurd hc (List.not_mem_nil c)
  | cons c0 L ih =>
      intro r r' h c hc i hi hlt
      unfold exceptFoldList at h
      rcases hc0 : formatCellAt cols r c0 with e | r1
      · rw [hc0] at h; cases h
      · rw [hc0] at h
        have hlen1 : r1.length = r.length := formatCellAt_length cols r c0 r1 hc0
        rcases List.mem_cons.mp hc with rfl | hcL
        · have hstep : ∃ v w, format_numeric_value v = .ok w ∧ r1.get? i = some w := by
            rcases hrv : r.get? i with _ | v
            · rw [List.get?_eq_getElem?, List.getElem?_eq_getElem hlt] at hrv
              cases hrv
            · rw [formatCellAt_eq2 cols r _ i v hi hrv] at hc0
              rcases hf : format_numeric_value v with e | w
              · rw [hf] at hc0; cases hc0
              · rw [hf] at hc0
                injection hc0 with h2
                refine ⟨v, w, hf, ?_⟩
                rw [← h2]
                exact getQ_set_self r i w hlt
          obtain ⟨v, w, hf, hcell⟩ := hstep
          exact formatRow_preserve_cell cols L r1 r' h i w hcell ⟨v, hf⟩
        · exact ih r1 r' h c hcL i hi (by rw [hlen1]; exact hlt)

/-- The fold succeeds whenever formatting succeeds on the cell under every
column of `L`. -/
theorem formatRow_ok_of_cells (cols : List String) :
    ∀ (L : List String) (r : List Value),
      (∀ c ∈ L, ∀ i, colIndex? c cols = some i →
        ∀ v, r.get? i = some v → ∃ u, format_numeric_value v = .ok u) →
      ∃ r', exceptFoldList (formatCellAt cols) r L = .ok r' := by
  intro L
  induction L with
  | nil => intro r _; exact ⟨r, rfl⟩
  | cons c L ih =>
      intro r hQ
      have hstep : ∃ r1, formatCellAt cols r c = .ok r1 ∧
          (∀ c' ∈ L, ∀ i, colIndex? c' cols = some i →
            ∀ v, r1.get? i = some v → ∃ u, format_numeric_value v = .ok u) := by
        rcases hci : colIndex? c cols with _ | i
        · exact ⟨r, formatCellAt_none cols r c hci,
            fun c' hc' i hi v hv => hQ c' (List.mem_cons_of_mem c hc') i hi v hv⟩
        · rcases hrv : r.get? i with _ | v
          · exact ⟨r, formatCellAt_oob cols r c i hci hrv,
              fun c' hc' i' hi' v hv => hQ c' (List.mem_cons_of_mem c hc') i' hi' v hv⟩
          · obtain ⟨w, hw⟩ := hQ c (List.mem_cons_self c L) i hci v hrv
            refine ⟨r.set i w, ?_, ?_⟩
            · rw [formatCellAt_eq2 cols r c i v hci hrv, hw]
            · intro c' hc' i' hi' v' hv'
              by_cases hii : i = i'
              · subst hii
                have hlt : i < r.length := by
                  rcases List.get?_eq_some.mp hrv with ⟨hlt, _⟩
                  exact hlt
                rw [getQ_set_self r i w hlt] at hv'
                injection hv' with hv2
                subst hv2
                exact format_format_ok v w hw
              · rw [getQ_set_ne r i i' w hii] at hv'
                exact hQ c' (List.mem_cons_of_mem c hc') i' hi' v' hv'
      obtain ⟨r1, h1, hQ1⟩ := hstep
      obtain ⟨r', hr'⟩ := ih r1 hQ1
      refine ⟨r', ?_⟩
      unfold exceptFoldList
      rw [h1]
      exact hr'

/-- The validity mask only depends on the missingness of the cells at the
required columns, which formatting preserves. -/
theorem rowValid_format (cols : List String) (r r' : List Value)
    (h : formatNumericRow cols r = .ok r') : rowValid cols r' = rowValid cols r := by
  have hmis : ∀ c, is_missing_value (lookupCell cols r' c) = is_missing_value (lookupCell cols r c) := by
    intro c
    unfold lookupCell
    rcases hci : colIndex? c cols with _ | i
    · rfl
    · exact formatRow_ok_missing cols numeric_columns r r' h i Value.none
  have hcount : count_missing_values (restrictRequired cols r')
      = count_missing_values (restrictRequired cols r) := by
    unfold count_missing_values restrictRequired
    induction required_columns with
    | nil => rfl
    | cons c L ih =>
        simp only [List.map_cons, List.countP_cons, ih, hmis c]
  unfold rowValid
  rw [hcount]

/-! ### Concatenation lemmas -/

theorem foldl_union_acc_mem (ls : List (List String)) :
    ∀ (acc : List String) (c : String), c ∈ acc →
      c ∈ ls.foldl (fun acc c2 => acc ++ c2.filter (fun x => decide (x ∉ acc))) acc := by
  induction ls with
  | nil => intro acc c h; exact h
  | cons l ls ih =>
      intro acc c h
      exact ih _ c (List.mem_append.mpr (Or.inl h))

theorem mem_unionCols (ls : List (List String)) (l : List String) (c : String)
    (hl : l ∈ ls) (hc : c ∈ l) : c ∈ unionCols ls := by
  unfold unionCols
  revert hl
  show l ∈ ls → c ∈ ls.foldl (fun acc c2 => acc ++ c2.filter (fun x => decide (x ∉ acc))) []
  generalize ([] : List String) = acc
  revert acc
  induction ls with
  | nil => intro acc h; exact absurd h (List.not_mem_nil l)
  | cons l0 ls ih =>
      intro acc hl
      rcases List.mem_cons.mp hl with rfl | hl2
      · refine foldl_union_acc_mem ls _ c ?_
        rw [List.mem_append]
        by_cases hacc : c ∈ acc
        · exact Or.inl hacc
        · refine Or.inr ?_
          rw [List.mem_filter]
          exact ⟨hc, by simpa using hacc⟩
      · exact ih _ hl2

theorem lookupCell_realign (own target : List String) (row : List Value) (c : String)
    (hc : c ∈ target) :
    lookupCell target (realignRow own target row) c = lookupCell own row c := by
  obtain ⟨i, hi⟩ := colIndex?_mem c target hc
  rw [lookupCell_eq target _ c i hi]
  have hti : target.get? i = some c := colIndex?_some_get c target i hi
  have hmap : (realignRow own target row).get? i = some (lookupCell own row c) := by
    show (target.map (lookupCell own row)).get? i = _
    rw [List.get?_map, hti]
    rfl
  exact getD_of_getQ _ i _ Value.none hmap

theorem map_lookup_realign (own target : List String) (row : List Value) :
    ∀ L : List String, (∀ c ∈ L, c ∈ target) →
      L.map (lookupCell target (realignRow own target row)) = L.map (lookupCell own row) := by
  intro L
  induction L with
  | nil => intro _; rfl
  | cons c L ih =>
      intro h
      simp only [List.map_cons]
      rw [lookupCell_realign own target row c (h c (List.mem_cons_self c L)),
        ih (fun c' hc' => h c' (List.mem_cons_of_mem c hc'))]

theorem restrictRequired_realign (own target : List String) (row : List Value)
    (hreq : ∀ c ∈ required_columns, c ∈ target) :
    restrictRequired target (realignRow own target row) = restrictRequired own row :=
  map_lookup_realign own target row required_columns hreq

theorem rowValid_realign (own target : List String) (row : List Value)
    (hreq : ∀ c ∈ required_columns, c ∈ target) :
    rowValid target (realignRow own target row) = rowValid own row := by
  unfold rowValid
  rw [restrictRequired_realign own target row hreq]

theorem getD_oob {α : Type} : ∀ (l : List α) (i : Nat) (d : α), l.length ≤ i →
    l.getD i d = d := by
  intro l
  induction l with
  | nil => intro i d _; cases i <;> rfl
  | cons x rest ih =>
      intro i d h
      cases i with
      | zero => simp at h
      | succ i => exact ih i d (by simpa using h)

/-! ### Rows delivered by the per-file pipeline -/

theorem validated_rows (d : Table) (hv : validatedFormatted d) :
    ∀ row ∈ d.rows,
      rowValid d.cols row = true ∧
      (∀ c ∈ numeric_columns, ∀ i, colIndex? c d.cols = some i → i < row.length →
        ∃ w, row.get? i = some w ∧ ∃ u, format_numeric_value u = .ok w) := by
  obtain ⟨hreq, rows0, hmap⟩ := hv
  intro row hrow
  obtain ⟨row1, hrow1, hfmt⟩ := exceptMapList_ok_mem _ _ _ hmap row hrow
  have hvalid1 : rowValid d.cols row1 = true := (List.mem_filter.mp hrow1).2
  have hlen : row.length = row1.length :=
    formatRow_ok_length d.cols numeric_columns row1 row hfmt
  refine ⟨?_, ?_⟩
  · rw [rowValid_format d.cols row1 row hfmt]
    exact hvalid1
  · intro c hc i hi hlt
    exact formatRow_ok_touched d.cols numeric_columns row1 row hfmt c hc i hi (by omega)

theorem numeric_sub_required : ∀ c ∈ numeric_columns, c ∈ required_columns := by decide

theorem concat_rows_spec (ds : List Table) (hv : ∀ d ∈ ds, validatedFormatted d) :
    ∀ p ∈ (concatTables ds).rows,
      rowValid (concatTables ds).cols p = true ∧
      (∀ c ∈ numeric_columns, ∀ i, colIndex? c (concatTables ds).cols = some i →
        ∀ v, p.get? i = some v → ∃ u, format_numeric_value v = .ok u) := by
  intro p hp
  have hp2 : ∃ d ∈ ds, ∃ row ∈ d.rows,
      p = realignRow d.cols (unionCols (ds.map Table.cols)) row := by
    obtain ⟨block, hblock, hpb⟩ := List.mem_flatten.mp hp
    obtain ⟨d, hd, hdef⟩ := List.mem_map.mp hblock
    rw [← hdef] at hpb
    obtain ⟨row, hrow, hrdef⟩ := List.mem_map.mp hpb
    exact ⟨d, hd, row, hrow, hrdef.symm⟩
  obtain ⟨d, hd, row, hrow, rfl⟩ := hp2
  have hreqd : ∀ c ∈ required_columns, c ∈ d.cols := (hv d hd).1
  have hrequ : ∀ c ∈ required_columns, c ∈ unionCols (ds.map Table.cols) := by
    intro c hc
    exact mem_unionCols (ds.map Table.cols) d.cols c
      (List.mem_map_of_mem Table.cols hd) (hreqd c hc)
  have hvr := validated_rows d (hv d hd) row hrow
  refine ⟨?_, ?_⟩
  · show rowValid (unionCols (ds.map Table.cols)) _ = true
    rw [rowValid_realign d.cols _ row hrequ]
    exact hvr.1
  · intro c hc i hi v hval
    have hcreq : c ∈ required_columns := numeric_sub_required c hc
    -- the cell of the realigned row is the looked-up cell of the original
    have hti : (unionCols (ds.map Table.cols)).get? i = some c :=
      colIndex?_some_get c _ i hi
    have hcell : (realignRow d.cols (unionCols (ds.map Table.cols)) row).get? i
        = some (lookupCell d.cols row c) := by
      show ((unionCols (ds.map Table.cols)).map (lookupCell d.cols row)).get? i = _
      rw [List.get?_map, hti]
      rfl
    rw [hcell] at hval
    injection hval with hval2
    subst hval2
    -- the original cell at a numeric column is a format output or out of range
    obtain ⟨i0, hi0⟩ := colIndex?_mem c d.cols (hreqd c hcreq)
    rw [lookupCell_eq d.cols row c i0 hi0]
    by_cases hlt : i0 < row.length
    · obtain ⟨w, hw, u, hu⟩ := hvr.2 c hc i0 hi0 hlt
      rw [getD_of_getQ row i0 w Value.none hw]
      exact format_format_ok u w hu
    · rw [getD_oob row i0 Value.none (by omega)]
      exact ⟨Value.none, rfl⟩

/-- Running `create_final_file` on validated, formatted datasets: the
re-filter drops nothing, the re-formatting succeeds, the merged row count
is the sum of the per-file counts, and the call returns success exactly
when one of the two write strategies works. -/
theorem create_final_file_run (env : WriteEnv) (ds : List Table) (t : Template)
    (hne : ds ≠ []) (hv : ∀ d ∈ ds, validatedFormatted d) :
    ∃ rows2,
      filterValidRows (concatTables ds).cols (concatTables ds).rows
        = (concatTables ds).rows ∧
      exceptMapList (formatNumericRow (concatTables ds).cols) (concatTables ds).rows
        = .ok rows2 ∧
      rows2.length = (ds.map (fun d => d.rows.length)).sum ∧
      ∃ r, create_final_file env ds t = .ok r ∧ r.count = rows2.length ∧
        r.success = (env.xlwingsOk || env.openpyxlOk) := by
  have hspec := concat_rows_spec ds hv
  have hfilter : filterValidRows (concatTables ds).cols (concatTables ds).rows
      = (concatTables ds).rows := by
    unfold filterValidRows
    rw [List.filter_eq_self]
    intro p hp
    exact (hspec p hp).1
  obtain ⟨rows2, hrows2⟩ :=
    exceptMapList_ok_of_all (formatNumericRow (concatTables ds).cols) (concatTables ds).rows
      (fun p hp => formatRow_ok_of_cells (concatTables ds).cols numeric_columns p
        (fun c hc i hi v hval => (hspec p hp).2 c hc i hi v hval))
  have hlen2 : rows2.length = (concatTables ds).rows.length :=
    exceptMapList_ok_length _ _ _ hrows2
  have hlenconcat : (concatTables ds).rows.length = (ds.map (fun d => d.rows.length)).sum := by
    show ((ds.map fun d => d.rows.map (realignRow d.cols (unionCols (ds.map Table.cols)))).flatten).length = _
    rw [List.length_flatten, List.map_map]
    have hgen : ∀ (ds2 : List Table) (target : List String),
        (ds2.map (List.length ∘ fun d => d.rows.map (realignRow d.cols target))).sum
          = (ds2.map (fun d => d.rows.length)).sum := by
      intro ds2 target
      induction ds2 with
      | nil => rfl
      | cons d rest ih => simp [List.length_map, ih]
    exact hgen ds (unionCols (ds.map Table.cols))
  refine ⟨rows2, hfilter, hrows2, by rw [hlen2, hlenconcat], ?_⟩
  cases ds with
  | nil => exact absurd rfl hne
  | cons d0 dtl =>
      rcases env with ⟨x, o⟩
      simp only [create_final_file]
      rw [hfilter, hrows2]
      cases x <;> cases o <;> exact ⟨_, rfl, rfl, rfl⟩

/-! ### process_files lemmas -/

theorem missingColumns_nil (cols : List String)
    (h : missingColumns cols = []) : ∀ c ∈ required_columns, c ∈ cols := by
  intro c hc
  have h2 := List.filter_eq_nil_iff.mp h c hc
  simpa using h2

theorem missingColumns_ne_nil (cols : List String) (c : String)
    (hc : c ∈ required_columns) (hnc : c ∉ cols) : missingColumns cols ≠ [] := by
  intro he
  exact absurd (missingColumns_nil cols he c hc) hnc

theorem processOneFile_readable (name : String) (tb : Table) :
    processOneFile (FileInput.readable name tb) =
      (if missingColumns (stripColumns tb.cols) ≠ [] then
        (Option.none, ["File " ++ name ++ ": Kolom yang hilang"])
      else
        match exceptMapList (formatNumericRow (stripColumns tb.cols))
            (filterValidRows (stripColumns tb.cols) tb.rows) with
        | .error _ =>
            (Option.none, [fileLog name tb, "Gagal membaca " ++ name ++ ": exception"])
        | .ok formatted =>
            (if formatted = [] then Option.none
             else some ⟨stripColumns tb.cols, formatted⟩, [fileLog name tb])) := rfl

theorem processOneFile_valid (f : FileInput) (d : Table)
    (h : (processOneFile f).1 = some d) : validatedFormatted d := by
  cases f with
  | unreadable name msg => exact Option.noConfusion h
  | readable name tb =>
      by_cases hm : missingColumns (stripColumns tb.cols) ≠ []
      · have he : (processOneFile (FileInput.readable name tb)).1 = Option.none := by
          rw [processOneFile_readable, if_pos hm]
        rw [he] at h
        exact Option.noConfusion h
      · rcases hmap : exceptMapList (formatNumericRow (stripColumns tb.cols))
            (filterValidRows (stripColumns tb.cols) tb.rows) with e | formatted
        · have he : (processOneFile (FileInput.readable name tb)).1 = Option.none := by
            rw [processOneFile_readable, if_neg hm, hmap]
          rw [he] at h
          exact Option.noConfusion h
        · have he : (processOneFile (FileInput.readable name tb)).1
              = (if formatted = [] then Option.none
                 else some ⟨stripColumns tb.cols, formatted⟩) := by
            rw [processOneFile_readable, if_neg hm, hmap]
          rw [he] at h
          by_cases hf : formatted = []
          · rw [if_pos hf] at h
            exact Option.noConfusion h
          · rw [if_neg hf] at h
            injection h with h2
            rw [← h2]
            refine ⟨?_, tb.rows, hmap⟩
            exact missingColumns_nil _ (by simpa using hm)

theorem processOneFile_bad (f : FileInput) (hb : badFile f) :
    (processOneFile f).1 = Option.none ∧ (processOneFile f).2 ≠ [] := by
  cases f with
  | unreadable name msg =>
      exact ⟨rfl, by
        show ¬(["Gagal membaca " ++ name ++ ": " ++ msg] : List String) = []
        simp⟩
  | readable name tb =>
      obtain ⟨c, hc, hnc⟩ := hb
      have hm : missingColumns (stripColumns tb.cols) ≠ [] :=
        missingColumns_ne_nil _ c hc hnc
      have he : processOneFile (FileInput.readable name tb)
          = (Option.none, ["File " ++ name ++ ": Kolom yang hilang"]) := by
        rw [processOneFile_readable, if_pos hm]
      rw [he]
      exact ⟨rfl, by simp⟩

theorem process_files_spec (files : List FileInput) :
    process_files files
      = ((files.map (fun f => (processOneFile f).1.toList)).flatten,
         (files.map (fun f => (processOneFile f).2)).flatten) := by
  have hgen : ∀ (fs : List FileInput) (acc : List Table × List String),
      fs.foldl (fun acc f =>
          (acc.1 ++ (processOneFile f).1.toList, acc.2 ++ (processOneFile f).2)) acc
        = (acc.1 ++ (fs.map (fun f => (processOneFile f).1.toList)).flatten,
           acc.2 ++ (fs.map (fun f => (processOneFile f).2)).flatten) := by
    intro fs
    induction fs with
    | nil => intro acc; simp
    | cons f fs ih =>
        intro acc
        rw [List.foldl_cons, ih]
        simp [List.append_assoc]
  show files.foldl _ ([], []) = _
  rw [hgen]
  simp

theorem process_files_valid (files : List FileInput) :
    ∀ d ∈ (process_files files).1, validatedFormatted d := by
  intro d hd
  rw [process_files_spec] at hd
  obtain ⟨block, hblock, hdb⟩ := List.mem_flatten.mp hd
  obtain ⟨f, hf, hdef⟩ := List.mem_map.mp hblock
  rw [← hdef] at hdb
  have hsome : (processOneFile f).1 = some d := by
    rcases hpf : (processOneFile f).1 with _ | d2
    · rw [hpf] at hdb
      exact absurd hdb (by simp)
    · rw [hpf] at hdb
      simp at hdb
      rw [hdb]
  exact processOneFile_valid f d hsome

/-- C5: for every non-empty list of per-file datasets that already passed
the per-file validation filter with numeric formatting applied, the
re-filter of the concatenated data drops no row, and the merged dataset
written by `create_final_file` reports a row count equal to the sum of
the per-file post-filter row counts. -/
theorem c5_concat_row_count (env : WriteEnv) (data_list : List Table) (t : Template)
    (hne : data_list ≠ []) (hv : ∀ d ∈ data_list, validatedFormatted d) :
    filterValidRows (concatTables data_list).cols (concatTables data_list).rows
      = (concatTables data_list).rows ∧
    ∃ r, create_final_file env data_list t = .ok r ∧
      r.count = (data_list.map (fun d => d.rows.length)).sum := by
  obtain ⟨rows2, hfilter, _, hlen, r, hr, hcount, _⟩ :=
    create_final_file_run env data_list t hne hv
  exact ⟨hfilter, r, hr, by rw [hcount, hlen]⟩

/-- C5 witness: one validated single-row dataset merges to exactly one
row. -/
theorem c5_witness :
    (∀ d ∈ [(⟨required_columns, [List.replicate 19 (Value.str "x")]⟩ : Table)],
      validatedFormatted d) ∧
    ∃ r, create_final_file ⟨true, true⟩
        [⟨required_columns, [List.replicate 19 (Value.str "x")]⟩]
        ⟨fun _ => Value.none, 0, 0⟩ = .ok r ∧ r.count = 1 := by
  have hv : ∀ d ∈ [(⟨required_columns, [List.replicate 19 (Value.str "x")]⟩ : Table)],
      validatedFormatted d := by
    intro d hd
    rcases List.mem_cons.mp hd with rfl | hd2
    · refine ⟨by decide, [List.replicate 19 (Value.str "x")], ?_⟩
      with_unfolding_all rfl
    · exact absurd hd2 (List.not_mem_nil d)
  obtain ⟨hf, r, hr, hc⟩ := c5_concat_row_count ⟨true, true⟩
    [⟨required_columns, [List.replicate 19 (Value.str "x")]⟩]
    ⟨fun _ => Value.none, 0, 0⟩ (by simp) hv
  exact ⟨hv, r, hr, by rw [hc]; rfl⟩

/-- C8: error handling of the pipeline — `process_files` accumulates
per-file results, a file that is unreadable or lacks a required column
contributes no dataset and appends a log entry, and `create_final_file`
on the produced datasets returns a failure only when the data list is
empty or both write strategies fail, and returns success whenever one of
them works. -/
theorem c8_error_handling (files : List FileInput) (env : WriteEnv) (t : Template) :
    ((process_files files).1 = (files.map (fun f => (processOneFile f).1.toList)).flatten ∧
     (process_files files).2 = (files.map (fun f => (processOneFile f).2)).flatten) ∧
    (∀ f ∈ files, badFile f →
        (processOneFile f).1 = Option.none ∧ (processOneFile f).2 ≠ []) ∧
    (∀ r, create_final_file env (process_files files).1 t = .ok r → r.success = false →
        (process_files files).1 = [] ∨ (env.xlwingsOk = false ∧ env.openpyxlOk = false)) ∧
    ((process_files files).1 ≠ [] → (env.xlwingsOk = true ∨ env.openpyxlOk = true) →
        ∃ r, create_final_file env (process_files files).1 t = .ok r ∧ r.success = true) := by
  refine ⟨⟨congrArg Prod.fst (process_files_spec files),
    congrArg Prod.snd (process_files_spec files)⟩,
    fun f _ hb => processOneFile_bad f hb, ?_, ?_⟩
  · intro r hr hsucc
    by_cases hne : (process_files files).1 = []
    · exact Or.inl hne
    · refine Or.inr ?_
      obtain ⟨rows2, _, _, _, r', hr', _, hsucc'⟩ :=
        create_final_file_run env _ t hne (process_files_valid files)
      rw [hr] at hr'
      injection hr' with h2
      rw [← h2] at hsucc'
      rw [hsucc] at hsucc'
      exact Bool.or_eq_false_iff.mp hsucc'.symm
  · intro hne hor
    obtain ⟨rows2, _, _, _, r, hr, _, hsucc⟩ :=
      create_final_file_run env _ t hne (process_files_valid files)
    refine ⟨r, hr, ?_⟩
    rw [hsucc]
    rcases hor with h | h <;> rw [h] <;> simp

/-- C8 witness: an unreadable file contributes nothing but a log line;
with the primary strategy failing and the fallback working, the merge of
the remaining good file succeeds. -/
theorem c8_witness :
    badFile (FileInput.unreadable "f" "oops") ∧
    (processOneFile (FileInput.unreadable "f" "oops")).1 = Option.none ∧
    (processOneFile (FileInput.unreadable "f" "oops")).2 ≠ [] ∧
    ∃ r, create_final_file ⟨false, true⟩
        (process_files [FileInput.unreadable "f" "oops",
          FileInput.readable "g" ⟨required_columns, [List.replicate 19 (Value.str "x")]⟩]).1
        ⟨fun _ => Value.none, 0, 0⟩ = .ok r ∧ r.success = true := by
  have h := c8_error_handling
    [FileInput.unreadable "f" "oops",
      FileInput.readable "g" ⟨required_columns, [List.replicate 19 (Value.str "x")]⟩]
    ⟨false, true⟩ ⟨fun _ => Value.none, 0, 0⟩
  have hbad := h.2.1 (FileInput.unreadable "f" "oops") (List.mem_cons_self _ _) trivial
  refine ⟨trivial, hbad.1, hbad.2, ?_⟩
  exact h.2.2.2 (by with_unfolding_all decide) (Or.inr rfl)

end MergeApp
